import Mathlib

/-!
Verification development for the Audio2Score MIDI decoder and playback
components.

The decoder is embedded from `utils/midiParser.ts` (class `MIDIParser`).
Byte buffers are modelled as `List ℕ`; a `DataView` stores octets, so
`getUint8` reduces each entry modulo 256, which makes the model total on
`List ℕ` while agreeing with `DataView` on every genuine byte sequence.
An out-of-bounds read raises a `RangeError` in JavaScript, which the
surrounding `try/catch` of `parseMidiBuffer` rethrows; reads are therefore
modelled in the `Except String` monad.  JavaScript numbers are IEEE-754
doubles.  The main model carries them as exact rationals `ℚ`; the
special-value arithmetic of doubles (division by zero yields
`Infinity`/`-Infinity`, and `0 * Infinity`, `Infinity - Infinity`, `0/0`
yield `NaN`, which every comparison treats as false) is modelled by the
`JSVal` refinement of the tick→seconds conversion stage below.  The two
models provably agree away from the division-by-zero edge
(`assembleMidiDataJS_agrees`); the edge is reachable — a header whose
time-division word has ticks-per-beat 0 parses successfully and produces
`NaN` start times and durations — and is exercised by the `C2`/`C3`
counterexamples.
Bitwise operations on byte-sized values are rendered arithmetically:
`x & 0x7F` is `x % 128`, `x & 0x80 ≠ 0` is `128 ≤ x` (for `x < 256`),
`x & 0xF0` is `x / 16 * 16`, `x & 0x7FFF` is `x % 32768`, and
`(a << 16) | (b << 8) | c` on single bytes is `a * 65536 + b * 256 + c`.
The `do … while` loops of the source become fueled recursions; the fuel
supplied always dominates the number of iterations the source performs
(each track-walk iteration advances `offset` by at least one byte), and
running out of fuel is modelled as an error.
-/

namespace MIDIParser

/-- The `MIDINote` record produced by the decoder
(`{note, startTime, duration, velocity}` in `types/midi`). -/
structure MIDINote where
  note : String
  startTime : ℚ
  duration : ℚ
  velocity : ℚ
deriving DecidableEq

/-- The `MIDIData` record returned by `parseMidiBuffer`
(`tracks` is always the empty array in the source). -/
structure MIDIData where
  notes : List MIDINote
  duration : ℚ
  tempo : ℤ
  timeSignature : ℕ × ℕ
  tracks : List Unit
deriving DecidableEq

/-- `view.getUint8(i)`: returns the octet at index `i`, throws `RangeError`
past the end of the buffer. -/
def getUint8 (buf : List ℕ) (i : ℕ) : Except String ℕ :=
  match buf[i]? with
  | some b => Except.ok (b % 256)
  | none => Except.error "RangeError"

/-- `view.getUint16(i)` (big-endian, two octets). -/
def getUint16 (buf : List ℕ) (i : ℕ) : Except String ℕ := do
  let b0 ← getUint8 buf i
  let b1 ← getUint8 buf (i + 1)
  pure (b0 * 256 + b1)

/-- `view.getUint32(i)` (big-endian, four octets). -/
def getUint32 (buf : List ℕ) (i : ℕ) : Except String ℕ := do
  let b0 ← getUint8 buf i
  let b1 ← getUint8 buf (i + 1)
  let b2 ← getUint8 buf (i + 2)
  let b3 ← getUint8 buf (i + 3)
  pure (b0 * 16777216 + b1 * 65536 + b2 * 256 + b3)

/-- Body of the `do … while` loop of `readVariableLength`.  The loop runs at
most 4 times (`bytesRead < 4` in the loop condition), so fuel 4 is exact.
`value = (value << 7) | (byte & 0x7F)` is rendered as
`value * 128 + byte % 128`: the shifted value and the 7 masked bits occupy
disjoint bit ranges, and with at most four 7-bit groups the JavaScript
32-bit shift cannot overflow. -/
def rvlGo (buf : List ℕ) (offset : ℕ) : ℕ → ℕ → ℕ → ℕ × ℕ
  | 0, value, bytesRead => (value, bytesRead)
  | fuel + 1, value, bytesRead =>
    if buf.length ≤ offset + bytesRead then (value, bytesRead)
    else
      let byte := buf.getD (offset + bytesRead) 0 % 256
      let value := value * 128 + byte % 128
      let bytesRead := bytesRead + 1
      if 128 ≤ byte ∧ bytesRead < 4 then rvlGo buf offset fuel value bytesRead
      else (value, bytesRead)

/-- `MIDIParser.readVariableLength`: variable-length quantity decoding,
returning `(value, bytesRead)`. -/
def readVariableLength (buf : List ℕ) (offset : ℕ) : ℕ × ℕ :=
  rvlGo buf offset 4 0 0

/-- A completed `{note, startTick, endTick, velocity}` record pushed onto
`noteEvents` when a pending note is closed. -/
structure NoteEvent where
  note : String
  startTick : ℕ
  endTick : ℕ
  velocity : ℕ
deriving DecidableEq

/-- The `activeNotes: Map<number, {startTick, velocity}>` of the parser,
modelled as an association list `(key, startTick, velocity)`. -/
abbrev ActiveMap := List (ℕ × ℕ × ℕ)

/-- `activeNotes.get(k)`. -/
def amGet (m : ActiveMap) (k : ℕ) : Option (ℕ × ℕ) :=
  match m.find? (fun e => e.1 == k) with
  | some e => some e.2
  | none => none

/-- `activeNotes.set(k, v)` (JavaScript `Map.set`: update in place if the
key is present, else append). -/
def amSet (m : ActiveMap) (k : ℕ) (v : ℕ × ℕ) : ActiveMap :=
  if (m.find? (fun e => e.1 == k)).isSome then
    m.map (fun e => if e.1 == k then (k, v) else e)
  else m ++ [(k, v)]

/-- `activeNotes.delete(k)`. -/
def amDelete (m : ActiveMap) (k : ℕ) : ActiveMap :=
  m.filter (fun e => e.1 != k)

/-- The modulo-12 pitch-class lookup table of `midiNoteToName`. -/
def noteNamesTable : List String :=
  ["C", "C#", "D"] ++ ["D#", "E", "F"] ++ ["F#", "G", "G#"] ++ ["A", "A#", "B"]

/-- `MIDIParser.midiNoteToName`: pitch-class table lookup plus octave
`floor(note / 12) - 1`. -/
def midiNoteToName (midiNote : ℕ) : String :=
  noteNamesTable.getD (midiNote % 12) "" ++ toString (Int.ofNat (midiNote / 12) - 1)

/-- The mutable variables threaded through the per-track event loop of
`parseMidiBuffer`: `offset`, `currentTick`, `lastStatus` (per track) and
the shared `tempo`, `activeNotes`, `noteEvents` (note that the source
declares `activeNotes` and `noteEvents` *outside* the track loop, so they
are shared by all tracks). -/
structure WalkState where
  offset : ℕ
  currentTick : ℕ
  lastStatus : ℕ
  tempo : ℕ
  active : ActiveMap
  events : List NoteEvent
deriving DecidableEq

/-- One iteration of the `while (offset < trackEnd && offset < view.byteLength)`
event loop of `parseMidiBuffer`, one case per event kind of the source's
`if`/`else if` chain; `next` continues with the following iteration. -/
def trackEventStep (buf : List ℕ) (trackEnd : ℕ)
    (next : WalkState → Except String WalkState) (s : WalkState) :
    Except String WalkState :=
    if s.offset < trackEnd ∧ s.offset < buf.length then
      let dv := readVariableLength buf s.offset
      let offset := s.offset + dv.2
      let currentTick := s.currentTick + dv.1
      if buf.length ≤ offset then
        Except.ok { s with offset := offset, currentTick := currentTick }
      else do
        let b ← getUint8 buf offset
        -- running status: a byte < 0x80 reuses the previous status and is
        -- not consumed; otherwise the status byte is consumed and recorded
        let status := if b < 128 then s.lastStatus else b
        let offset := if b < 128 then offset else offset + 1
        let lastStatus := if b < 128 then s.lastStatus else b
        let messageType := status / 16 * 16
        if messageType = 144 then do
          -- Note On (0x90)
          let note ← getUint8 buf offset
          let velocity ← getUint8 buf (offset + 1)
          let offset := offset + 2
          if 0 < velocity then
            next
              { offset := offset, currentTick := currentTick,
                lastStatus := lastStatus, tempo := s.tempo,
                active := amSet s.active note (currentTick, velocity),
                events := s.events }
          else
            -- Note On with velocity 0 acts as Note Off
            match amGet s.active note with
            | some nOn =>
              next
                { offset := offset, currentTick := currentTick,
                  lastStatus := lastStatus, tempo := s.tempo,
                  active := amDelete s.active note,
                  events := s.events ++
                    [⟨midiNoteToName note, nOn.1, currentTick, nOn.2⟩] }
            | none =>
              next
                { offset := offset, currentTick := currentTick,
                  lastStatus := lastStatus, tempo := s.tempo,
                  active := s.active, events := s.events }
        else if messageType = 128 then do
          -- Note Off (0x80)
          let note ← getUint8 buf offset
          let _velocity ← getUint8 buf (offset + 1)
          let offset := offset + 2
          match amGet s.active note with
          | some nOn =>
            next
              { offset := offset, currentTick := currentTick,
                lastStatus := lastStatus, tempo := s.tempo,
                active := amDelete s.active note,
                events := s.events ++
                  [⟨midiNoteToName note, nOn.1, currentTick, nOn.2⟩] }
          | none =>
            next
              { offset := offset, currentTick := currentTick,
                lastStatus := lastStatus, tempo := s.tempo,
                active := s.active, events := s.events }
        else if messageType = 176 then
          -- Control Change (0xB0)
          next
            { offset := offset + 2, currentTick := currentTick,
              lastStatus := lastStatus, tempo := s.tempo,
              active := s.active, events := s.events }
        else if messageType = 192 then
          -- Program Change (0xC0)
          next
            { offset := offset + 1, currentTick := currentTick,
              lastStatus := lastStatus, tempo := s.tempo,
              active := s.active, events := s.events }
        else if messageType = 208 then
          -- Channel Pressure (0xD0)
          next
            { offset := offset + 1, currentTick := currentTick,
              lastStatus := lastStatus, tempo := s.tempo,
              active := s.active, events := s.events }
        else if messageType = 224 then
          -- Pitch Bend (0xE0)
          next
            { offset := offset + 2, currentTick := currentTick,
              lastStatus := lastStatus, tempo := s.tempo,
              active := s.active, events := s.events }
        else if status = 255 then do
          -- Meta Event (0xFF)
          let metaType ← getUint8 buf offset
          let offset := offset + 1
          let lv := readVariableLength buf offset
          let offset := offset + lv.2
          if metaType = 81 ∧ lv.1 = 3 then do
            -- Set Tempo (0x51, length 3)
            let t0 ← getUint8 buf offset
            let t1 ← getUint8 buf (offset + 1)
            let t2 ← getUint8 buf (offset + 2)
            next
              { offset := offset + lv.1, currentTick := currentTick,
                lastStatus := lastStatus,
                tempo := t0 * 65536 + t1 * 256 + t2,
                active := s.active, events := s.events }
          else
            next
              { offset := offset + lv.1, currentTick := currentTick,
                lastStatus := lastStatus, tempo := s.tempo,
                active := s.active, events := s.events }
        else if status = 240 ∨ status = 247 then
          -- SysEx (0xF0, 0xF7)
          let lv := readVariableLength buf offset
          next
            { offset := offset + lv.2 + lv.1, currentTick := currentTick,
              lastStatus := lastStatus, tempo := s.tempo,
              active := s.active, events := s.events }
        else
          -- no branch of the source applies; only the delta time (and a
          -- status byte, if one was consumed) advanced the offset
          next
            { offset := offset, currentTick := currentTick,
              lastStatus := lastStatus, tempo := s.tempo,
              active := s.active, events := s.events }
    else Except.ok s

/-- The fueled event loop itself: each iteration is `trackEventStep`. -/
def trackLoop (buf : List ℕ) (trackEnd : ℕ) : ℕ → WalkState → Except String WalkState
  | 0, _ => Except.error "fuel exhausted"
  | fuel + 1, s => trackEventStep buf trackEnd (trackLoop buf trackEnd fuel) s

/-- The `for (let track = 0; track < trackCount; track++)` loop: verify the
`MTrk` magic (a mismatch `break`s out, keeping what was parsed), read the
track length, run the event loop, then jump to `trackEnd`.  Returns the
final `(tempo, activeNotes, noteEvents)`. -/
def tracksLoop (buf : List ℕ) :
    ℕ → ℕ → ℕ → ActiveMap → List NoteEvent →
    Except String (ℕ × ActiveMap × List NoteEvent)
  | 0, _, tempo, active, events => Except.ok (tempo, active, events)
  | remaining + 1, offset, tempo, active, events => do
    let h0 ← getUint8 buf offset
    let h1 ← getUint8 buf (offset + 1)
    let h2 ← getUint8 buf (offset + 2)
    let h3 ← getUint8 buf (offset + 3)
    if ¬(h0 = 77 ∧ h1 = 84 ∧ h2 = 114 ∧ h3 = 107) then
      -- trackHeader ≠ "MTrk": console.warn + break
      Except.ok (tempo, active, events)
    else do
      let trackLength ← getUint32 buf (offset + 4)
      let offset := offset + 8
      let trackEnd := offset + trackLength
      let s ← trackLoop buf trackEnd (buf.length + 1)
        { offset := offset, currentTick := 0, lastStatus := 0,
          tempo := tempo, active := active, events := events }
      tracksLoop buf remaining trackEnd s.tempo s.active s.events

/-- Outcome of the byte-walking phase of `parseMidiBuffer`: the completed
`noteEvents`, the final `activeNotes` map (whatever Note-Ons were never
closed), the tempo in microseconds per beat, and `ticksPerBeat`. -/
structure ParseOut where
  events : List NoteEvent
  leftover : ActiveMap
  tempo : ℕ
  ticksPerBeat : ℕ
deriving DecidableEq

/-- The header-check and track-walking phase of `parseMidiBuffer`
(everything before the tick→seconds conversion). -/
def parseEvents (buf : List ℕ) : Except String ParseOut := do
  let h0 ← getUint8 buf 0
  let h1 ← getUint8 buf 1
  let h2 ← getUint8 buf 2
  let h3 ← getUint8 buf 3
  if ¬(h0 = 77 ∧ h1 = 84 ∧ h2 = 104 ∧ h3 = 100) then
    -- header ≠ "MThd"
    Except.error "not a valid MIDI file"
  else do
    let _formatType ← getUint16 buf 8
    let trackCount ← getUint16 buf 10
    let timeDivision ← getUint16 buf 12
    let ticksPerBeat := timeDivision % 32768
    let r ← tracksLoop buf trackCount 14 500000 [] []
    pure { events := r.2.2, leftover := r.2.1, tempo := r.1,
           ticksPerBeat := ticksPerBeat }

/-- `secondsPerTick = (tempo / 1e6) / ticksPerBeat`, in the exact-rational
model.  When `ticksPerBeat = 0` the source's double division yields
`Infinity` while `ℚ` division yields 0; that edge is modelled faithfully by
`secondsPerTickJS` below, and the two agree whenever `ticksPerBeat ≠ 0`
(`secondsPerTickJS_num`). -/
def secondsPerTick (tempo ticksPerBeat : ℕ) : ℚ :=
  ((tempo : ℚ) / 1000000) / (ticksPerBeat : ℚ)

/-- The per-event body of the final `noteEvents.forEach` conversion. -/
def eventToNote (spt : ℚ) (e : NoteEvent) : MIDINote :=
  { note := e.note
    startTime := (e.startTick : ℚ) * spt
    duration := (e.endTick : ℚ) * spt - (e.startTick : ℚ) * spt
    velocity := (e.velocity : ℚ) / 127 }

/-- The comparator `(a, b) => a.startTime - b.startTime` orders notes by
non-decreasing `startTime`. -/
def noteLE (a b : MIDINote) : Prop := a.startTime ≤ b.startTime

instance : DecidableRel noteLE := fun a b =>
  inferInstanceAs (Decidable (a.startTime ≤ b.startTime))

/-- The tick→seconds conversion and final `MIDIData` assembly of
`parseMidiBuffer`: convert each completed event, accumulate the running
maximum end time into `duration`, sort the notes by `startTime`.  Only the
completed `noteEvents` are consulted; entries still in `activeNotes` are
dropped. -/
def assembleMidiData (p : ParseOut) : MIDIData :=
  let spt := secondsPerTick p.tempo p.ticksPerBeat
  { notes := List.insertionSort noteLE (p.events.map (eventToNote spt))
    duration := p.events.foldl (fun d e => max d ((e.endTick : ℚ) * spt)) 0
    tempo := round ((60000000 : ℚ) / (p.tempo : ℚ))
    timeSignature := (4, 4)
    tracks := [] }

/-- `MIDIParser.parseMidiBuffer`. -/
def parseMidiBuffer (buf : List ℕ) : Except String MIDIData :=
  (parseEvents buf).map assembleMidiData

/-! ### IEEE-754 special values

The tick→seconds conversion runs on JavaScript numbers, i.e. IEEE-754
doubles.  `JSVal` refines the exact-rational model with the three special
values the conversion can produce: `x / 0 = Infinity` for `x > 0`
(`0 / 0 = NaN`), `0 * Infinity = NaN`, `Infinity - NaN = NaN`, and every
comparison involving `NaN` is false.  Finite values are carried as exact
rationals: on the division-by-zero inputs below every quantity involved
(`0.5`, `0`, `±Infinity`, `NaN`) is exactly representable as a double, so
no rounding enters.  Negative zero is not modelled: every divisor in the
source is the cast of an unsigned integer, so `-0` never arises. -/
inductive JSVal where
  | num : ℚ → JSVal
  | inf : JSVal
  | negInf : JSVal
  | nan : JSVal
deriving DecidableEq

/-- Double division `a / b` on `JSVal` (no `-0`): a positive finite value
divided by zero is `Infinity`, `0 / 0` is `NaN`. -/
def jsDiv : JSVal → JSVal → JSVal
  | .nan, _ => .nan
  | _, .nan => .nan
  | .num a, .num b =>
      if b = 0 then (if 0 < a then .inf else if a < 0 then .negInf else .nan)
      else .num (a / b)
  | .num _, .inf => .num 0
  | .num _, .negInf => .num 0
  | .inf, .num b => if 0 ≤ b then .inf else .negInf
  | .negInf, .num b => if 0 ≤ b then .negInf else .inf
  | .inf, _ => .nan
  | .negInf, _ => .nan

/-- Double multiplication on `JSVal`: `0 * ±Infinity = NaN`. -/
def jsMul : JSVal → JSVal → JSVal
  | .nan, _ => .nan
  | _, .nan => .nan
  | .num a, .num b => .num (a * b)
  | .num a, .inf => if 0 < a then .inf else if a < 0 then .negInf else .nan
  | .inf, .num b => if 0 < b then .inf else if b < 0 then .negInf else .nan
  | .num a, .negInf => if 0 < a then .negInf else if a < 0 then .inf else .nan
  | .negInf, .num b => if 0 < b then .negInf else if b < 0 then .inf else .nan
  | .inf, .inf => .inf
  | .inf, .negInf => .negInf
  | .negInf, .inf => .negInf
  | .negInf, .negInf => .inf

/-- Double subtraction on `JSVal`: `Infinity - Infinity = NaN`, `NaN`
propagates. -/
def jsSub : JSVal → JSVal → JSVal
  | .nan, _ => .nan
  | _, .nan => .nan
  | .num a, .num b => .num (a - b)
  | .num _, .inf => .negInf
  | .num _, .negInf => .inf
  | .inf, .inf => .nan
  | .negInf, .negInf => .nan
  | .inf, _ => .inf
  | .negInf, _ => .negInf

/-- The double comparison `a <= b`: false whenever either side is `NaN`. -/
def jsLe : JSVal → JSVal → Bool
  | .nan, _ => false
  | _, .nan => false
  | .num a, .num b => decide (a ≤ b)
  | .num _, .inf => true
  | .num _, .negInf => false
  | .inf, .inf => true
  | .inf, _ => false
  | .negInf, _ => true

/-- The double comparison `a < b`: false whenever either side is `NaN`. -/
def jsLt : JSVal → JSVal → Bool
  | .nan, _ => false
  | _, .nan => false
  | .num a, .num b => decide (a < b)
  | .num _, .inf => true
  | .num _, .negInf => false
  | .inf, _ => false
  | .negInf, .negInf => false
  | .negInf, _ => true

/-- `Math.max`: `NaN` if either argument is `NaN`, otherwise the larger. -/
def jsMax : JSVal → JSVal → JSVal
  | .nan, _ => .nan
  | _, .nan => .nan
  | a, b => if jsLe a b then b else a

/-- `Math.round` on a `JSVal` (half-integers round toward `+Infinity`, as
`round` does; `Math.round(±Infinity) = ±Infinity`, `Math.round(NaN) = NaN`). -/
def jsRound : JSVal → JSVal
  | .num a => .num ((round a : ℤ) : ℚ)
  | .inf => .inf
  | .negInf => .negInf
  | .nan => .nan

/-- `MIDINote` with its numeric fields at double precision. -/
structure JSMIDINote where
  note : String
  startTime : JSVal
  duration : JSVal
  velocity : JSVal
deriving DecidableEq

/-- `MIDIData` with its numeric fields at double precision. -/
structure JSMIDIData where
  notes : List JSMIDINote
  duration : JSVal
  tempo : JSVal
  timeSignature : ℕ × ℕ
  tracks : List Unit
deriving DecidableEq

/-- `secondsPerTick` on doubles: `(tempo / 1e6) / ticksPerBeat`.  With
`ticksPerBeat = 0` and `tempo > 0` this is `Infinity`. -/
def secondsPerTickJS (tempo ticksPerBeat : ℕ) : JSVal :=
  jsDiv (jsDiv (JSVal.num tempo) (JSVal.num 1000000)) (JSVal.num ticksPerBeat)

/-- The per-event conversion body on doubles. -/
def eventToNoteJS (spt : JSVal) (e : NoteEvent) : JSMIDINote :=
  { note := e.note
    startTime := jsMul (JSVal.num e.startTick) spt
    duration := jsSub (jsMul (JSVal.num e.endTick) spt)
                  (jsMul (JSVal.num e.startTick) spt)
    velocity := jsDiv (JSVal.num e.velocity) (JSVal.num 127) }

/-- Note order on doubles, from the comparator
`(a, b) => a.startTime - b.startTime`.  On finite start times this is
non-decreasing order; when a start time is `NaN` the comparator returns
`NaN` and ECMAScript leaves the resulting order implementation-defined
(though always a permutation of the input), so on such inputs this models
one admissible order — the properties stated about such inputs below are
invariant under permutation. -/
def jsNoteLE (a b : JSMIDINote) : Prop := jsLe a.startTime b.startTime = true

instance : DecidableRel jsNoteLE := fun a b =>
  inferInstanceAs (Decidable (jsLe a.startTime b.startTime = true))

/-- The final `MIDIData` assembly of `parseMidiBuffer` on doubles. -/
def assembleMidiDataJS (p : ParseOut) : JSMIDIData :=
  let spt := secondsPerTickJS p.tempo p.ticksPerBeat
  { notes := List.insertionSort jsNoteLE (p.events.map (eventToNoteJS spt))
    duration := p.events.foldl
      (fun d e => jsMax d (jsMul (JSVal.num e.endTick) spt)) (JSVal.num 0)
    tempo := jsRound (jsDiv (JSVal.num 60000000) (JSVal.num p.tempo))
    timeSignature := (4, 4)
    tracks := [] }

/-- `MIDIParser.parseMidiBuffer` with the conversion stage at double
precision.  The byte walk (`parseEvents`) is integer-only and shared with
the exact model. -/
def parseMidiBufferJS (buf : List ℕ) : Except String JSMIDIData :=
  (parseEvents buf).map assembleMidiDataJS

/-- Embed an exact-model note into the double model. -/
def jsOfNote (n : MIDINote) : JSMIDINote :=
  { note := n.note
    startTime := JSVal.num n.startTime
    duration := JSVal.num n.duration
    velocity := JSVal.num n.velocity }

/-- Embed an exact-model `MIDIData` into the double model. -/
def jsOfData (d : MIDIData) : JSMIDIData :=
  { notes := d.notes.map jsOfNote
    duration := JSVal.num d.duration
    tempo := JSVal.num (d.tempo : ℚ)
    timeSignature := d.timeSignature
    tracks := d.tracks }

end MIDIParser

namespace MIDIParser

/-! ### Agreement of the exact and double models

Away from the division-by-zero edge, the double-precision conversion
coincides with the exact-rational one (up to the rounding of finite
results, which none of these operations incur on the values reached here:
the operations below are stated on exact rationals on both sides). -/

theorem jsDiv_num_num (a b : ℚ) (hb : b ≠ 0) :
    jsDiv (JSVal.num a) (JSVal.num b) = JSVal.num (a / b) := by
  simp [jsDiv, hb]

theorem jsMul_num_num (a b : ℚ) :
    jsMul (JSVal.num a) (JSVal.num b) = JSVal.num (a * b) := rfl

theorem jsSub_num_num (a b : ℚ) :
    jsSub (JSVal.num a) (JSVal.num b) = JSVal.num (a - b) := rfl

theorem jsLe_num_num (a b : ℚ) :
    jsLe (JSVal.num a) (JSVal.num b) = true ↔ a ≤ b := by
  simp [jsLe]

theorem jsMax_num_num (a b : ℚ) :
    jsMax (JSVal.num a) (JSVal.num b) = JSVal.num (max a b) := by
  by_cases h : a ≤ b
  · simp [jsMax, jsLe, h, max_eq_right h]
  · simp [jsMax, jsLe, h, max_eq_left (le_of_not_le h)]

theorem secondsPerTickJS_num (tempo tpb : ℕ) (h : tpb ≠ 0) :
    secondsPerTickJS tempo tpb = JSVal.num (secondsPerTick tempo tpb) := by
  have h6 : (1000000 : ℚ) ≠ 0 := by norm_num
  have hq : (tpb : ℚ) ≠ 0 := Nat.cast_ne_zero.2 h
  rw [secondsPerTickJS, jsDiv_num_num _ _ h6, jsDiv_num_num _ _ hq,
    secondsPerTick]

theorem eventToNoteJS_num (q : ℚ) (e : NoteEvent) :
    eventToNoteJS (JSVal.num q) e = jsOfNote (eventToNote q e) := by
  have h127 : (127 : ℚ) ≠ 0 := by norm_num
  rw [eventToNoteJS, eventToNote, jsOfNote, jsMul_num_num, jsMul_num_num,
    jsSub_num_num, jsDiv_num_num _ _ h127]

theorem foldl_jsMax_num (l : List NoteEvent) (q a : ℚ) :
    l.foldl (fun d e => jsMax d (jsMul (JSVal.num e.endTick) (JSVal.num q)))
        (JSVal.num a)
      = JSVal.num (l.foldl (fun d e => max d ((e.endTick : ℚ) * q)) a) := by
  induction l generalizing a with
  | nil => rfl
  | cons e l ih =>
    rw [List.foldl_cons, List.foldl_cons, jsMul_num_num, jsMax_num_num, ih]

/-- The double-model note list agrees with the exact one whenever
`ticksPerBeat ≠ 0` (the tempo may be anything, including 0). -/
theorem assembleMidiDataJS_notes (p : ParseOut) (htpb : p.ticksPerBeat ≠ 0) :
    (assembleMidiDataJS p).notes
      = ((assembleMidiData p).notes).map jsOfNote := by
  rw [assembleMidiDataJS, assembleMidiData]
  have hspt := secondsPerTickJS_num p.tempo p.ticksPerBeat htpb
  rw [hspt]
  have hmap : p.events.map (eventToNoteJS
        (JSVal.num (secondsPerTick p.tempo p.ticksPerBeat)))
      = (p.events.map (eventToNote (secondsPerTick p.tempo p.ticksPerBeat))).map
          jsOfNote := by
    rw [List.map_map]
    exact List.map_congr_left fun e _ => eventToNoteJS_num _ e
  rw [hmap]
  exact (List.map_insertionSort noteLE jsNoteLE jsOfNote _
    fun a _ b _ => (jsLe_num_num _ _).symm).symm

/-- Full agreement of the two conversion models when both divisors are
nonzero: the double-model output is the embedding of the exact output. -/
theorem assembleMidiDataJS_agrees (p : ParseOut) (ht : p.tempo ≠ 0)
    (htpb : p.ticksPerBeat ≠ 0) :
    assembleMidiDataJS p = jsOfData (assembleMidiData p) := by
  have hspt := secondsPerTickJS_num p.tempo p.ticksPerBeat htpb
  have htq : (p.tempo : ℚ) ≠ 0 := Nat.cast_ne_zero.2 ht
  have hmap : p.events.map (eventToNoteJS
        (JSVal.num (secondsPerTick p.tempo p.ticksPerBeat)))
      = (p.events.map (eventToNote (secondsPerTick p.tempo p.ticksPerBeat))).map
          jsOfNote := by
    rw [List.map_map]
    exact List.map_congr_left fun e _ => eventToNoteJS_num _ e
  unfold assembleMidiDataJS jsOfData assembleMidiData
  simp only [hspt, hmap, jsDiv_num_num _ _ htq, jsRound, foldl_jsMax_num,
    JSMIDIData.mk.injEq]
  exact ⟨(List.map_insertionSort noteLE jsNoteLE jsOfNote _
    fun a _ b _ => (jsLe_num_num _ _).symm).symm, trivial, trivial, trivial,
    trivial⟩

/-- Sortedness transfers along the embedding of exact notes into double
notes. -/
theorem sorted_map_jsOfNote {l : List MIDINote} (h : List.Sorted noteLE l) :
    List.Sorted jsNoteLE (l.map jsOfNote) := by
  refine List.Pairwise.map jsOfNote ?_ h
  intro a b hab
  exact (jsLe_num_num _ _).2 hab

theorem bindOk {α β : Type} {x : Except String α} {f : α → Except String β} {r : β}
    (h : x >>= f = Except.ok r) : ∃ a, x = Except.ok a ∧ f a = Except.ok r := by
  cases x with
  | ok a => exact ⟨a, rfl, h⟩
  | error e => simp [Bind.bind, Except.bind] at h

/-- `parseEvents` records `timeDivision & 0x7FFF` as `ticksPerBeat`. -/
theorem parseEvents_ticksPerBeat (buf : List ℕ) (p : ParseOut) (td : ℕ)
    (h : parseEvents buf = Except.ok p)
    (htd : getUint16 buf 12 = Except.ok td) : p.ticksPerBeat = td % 32768 := by
  rw [parseEvents] at h
  rcases bindOk h with ⟨h0, _, h⟩
  rcases bindOk h with ⟨h1, _, h⟩
  rcases bindOk h with ⟨h2, _, h⟩
  rcases bindOk h with ⟨h3, _, h⟩
  by_cases hhdr : ¬(h0 = 77 ∧ h1 = 84 ∧ h2 = 104 ∧ h3 = 100)
  · rw [if_pos hhdr] at h
    exact absurd h (by simp)
  · rw [if_neg hhdr] at h
    rcases bindOk h with ⟨fmt, _, h⟩
    rcases bindOk h with ⟨trackCount, _, h⟩
    rcases bindOk h with ⟨timeDivision, htdr, h⟩
    rcases bindOk h with ⟨r, _, h⟩
    have htdc : timeDivision = td := by
      rw [htdr] at htd
      exact Except.ok.inj htd
    simp only [pure, Except.pure, Except.ok.injEq] at h
    rw [← h, ← htdc]

/-! ### Concrete input buffers

`c1buf`: format-1 SMF, 480 ticks per beat, one track containing a
Set-Tempo meta event for 500000 µs/beat, a Note-On for pitch 60 at
tick 0 (velocity 100), a Note-Off for pitch 60 at tick 480 (delta time
encoded as the two-byte variable-length quantity `0x83 0x60`), and an
End-of-Track meta event. -/
def c1buf : List ℕ :=
  [77, 84, 104, 100, 0, 0, 0, 6, 0, 1, 0, 1, 1, 224,
   77, 84, 114, 107, 0, 0, 0, 20,
   0, 255, 81, 3, 7, 161, 32,
   0, 144, 60, 100,
   131, 96, 128, 60, 64,
   0, 255, 47, 0]

/-- What `parseMidiBuffer` returns on `c1buf`: a single note C4 starting at
0 s lasting 0.5 s (480 ticks at 500000 µs/beat and 480 ticks/beat is one
beat, i.e. half a second). -/
def c1data : MIDIData :=
  { notes := [{ note := "C4", startTime := 0, duration := 1 / 2,
                velocity := 100 / 127 }]
    duration := 1 / 2
    tempo := 120
    timeSignature := (4, 4)
    tracks := [] }

theorem c1_parse_eq : parseMidiBuffer c1buf = Except.ok c1data := by
  have h : parseEvents c1buf =
      Except.ok ⟨[⟨"C4", 0, 480, 100⟩], [], 500000, 480⟩ := rfl
  rw [parseMidiBuffer, h]
  simp only [Except.map, Except.ok.injEq]
  unfold assembleMidiData secondsPerTick eventToNote c1data
  simp [List.insertionSort, List.orderedInsert]
  norm_num [round_eq]

/-- **C1** (counterexample).  On the SMF with tempo 500000 µs/beat,
480 ticks/beat, Note-On for pitch 60 at tick 0 and Note-Off at tick 480,
`parse` succeeds but the resulting `Score` contains no note
`{pitchName := "C4", startTime := 0, duration := 1}`: the claimed duration
1.0 is wrong. -/
theorem c1_counterexample :
    parseMidiBuffer c1buf = Except.ok c1data ∧
    ¬ ∃ n ∈ c1data.notes, n.note = "C4" ∧ n.startTime = 0 ∧ n.duration = 1 := by
  refine ⟨c1_parse_eq, ?_⟩
  simp only [c1data, List.mem_singleton]
  rintro ⟨n, rfl, -, -, hdur⟩
  norm_num at hdur

/-- **C1** (amended).  On that SMF, `parse` returns a `Score` whose single
note is `{pitchName := "C4", startTime := 0, duration := 0.5}`: 480 ticks
at 500000 µs/beat and 480 ticks/beat last half a second, not one second. -/
theorem c1_amended :
    parseMidiBuffer c1buf = Except.ok c1data ∧
    ∃ n ∈ c1data.notes, n.note = "C4" ∧ n.startTime = 0 ∧ n.duration = 1 / 2 := by
  refine ⟨c1_parse_eq, ?_⟩
  exact ⟨_, List.mem_singleton.2 rfl, rfl, rfl, rfl⟩

/-- Like `c1buf` but the Note-Off follows the Note-On at delta time 0: the
completed note spans zero ticks. -/
def c2zeroBuf : List ℕ :=
  [77, 84, 104, 100, 0, 0, 0, 6, 0, 1, 0, 1, 1, 224,
   77, 84, 114, 107, 0, 0, 0, 19,
   0, 255, 81, 3, 7, 161, 32,
   0, 144, 60, 100,
   0, 128, 60, 64,
   0, 255, 47, 0]

/-- Result of parsing `c2zeroBuf`: one note of duration 0. -/
def c2zeroData : MIDIData :=
  { notes := [{ note := "C4", startTime := 0, duration := 0,
                velocity := 100 / 127 }]
    duration := 0
    tempo := 120
    timeSignature := (4, 4)
    tracks := [] }

/-- Two-track SMF: track 1 opens pitch 60 at tick 480 and never closes it;
track 2 closes pitch 60 at tick 0 (ticks restart at 0 in every track, but
the `activeNotes` map is shared across tracks), yielding
`endTick 0 < startTick 480` and hence a negative duration. -/
def c2negBuf : List ℕ :=
  [77, 84, 104, 100, 0, 0, 0, 6, 0, 1, 0, 2, 1, 224,
   77, 84, 114, 107, 0, 0, 0, 9,
   131, 96, 144, 60, 100,
   0, 255, 47, 0,
   77, 84, 114, 107, 0, 0, 0, 8,
   0, 128, 60, 64,
   0, 255, 47, 0]

/-- Result of parsing `c2negBuf`: one note of duration −0.5 s. -/
def c2negData : MIDIData :=
  { notes := [{ note := "C4", startTime := 1 / 2, duration := -(1 / 2),
                velocity := 100 / 127 }]
    duration := 0
    tempo := 120
    timeSignature := (4, 4)
    tracks := [] }

theorem c2zero_parse_eq : parseMidiBuffer c2zeroBuf = Except.ok c2zeroData := by
  have h : parseEvents c2zeroBuf =
      Except.ok ⟨[⟨"C4", 0, 0, 100⟩], [], 500000, 480⟩ := rfl
  rw [parseMidiBuffer, h]
  simp only [Except.map, Except.ok.injEq]
  unfold assembleMidiData secondsPerTick eventToNote c2zeroData
  simp [List.insertionSort, List.orderedInsert]
  norm_num [round_eq]

theorem c2neg_parse_eq : parseMidiBuffer c2negBuf = Except.ok c2negData := by
  have h : parseEvents c2negBuf =
      Except.ok ⟨[⟨"C4", 480, 0, 100⟩], [], 500000, 480⟩ := rfl
  rw [parseMidiBuffer, h]
  simp only [Except.map, Except.ok.injEq]
  unfold assembleMidiData secondsPerTick eventToNote c2negData
  simp [List.insertionSort, List.orderedInsert]
  norm_num [round_eq]

/-- Like `c1buf` but the header's time-division word is 0
(bytes 12–13 are `0, 0`), so `ticksPerBeat = 0 & 0x7FFF = 0` and the
tick→seconds division is a double division by zero. -/
def c2nanBuf : List ℕ :=
  [77, 84, 104, 100, 0, 0, 0, 6, 0, 1, 0, 1, 0, 0,
   77, 84, 114, 107, 0, 0, 0, 13,
   0, 144, 60, 100,
   131, 96, 128, 60, 64,
   0, 255, 47, 0]

/-- Result of parsing `c2nanBuf` in the double model:
`secondsPerTick = (500000 / 1e6) / 0 = Infinity`, so the note's start time
is `0 * Infinity = NaN`, its end time is `480 * Infinity = Infinity`, and
its duration is `Infinity - NaN = NaN`. -/
def c2nanData : JSMIDIData :=
  { notes := [{ note := "C4", startTime := JSVal.nan, duration := JSVal.nan,
                velocity := JSVal.num (100 / 127) }]
    duration := JSVal.inf
    tempo := JSVal.num 120
    timeSignature := (4, 4)
    tracks := [] }

theorem c2nan_parse_eq : parseMidiBufferJS c2nanBuf = Except.ok c2nanData := by
  have h : parseEvents c2nanBuf =
      Except.ok ⟨[⟨"C4", 0, 480, 100⟩], [], 500000, 0⟩ := rfl
  rw [parseMidiBufferJS, h]
  simp only [Except.map, Except.ok.injEq]
  unfold assembleMidiDataJS secondsPerTickJS eventToNoteJS c2nanData
  norm_num [jsDiv, jsMul, jsSub, jsMax, jsRound, jsLe, jsNoteLE,
    List.insertionSort, List.orderedInsert, round_eq]

/-- **C2** (counterexample).  Three successfully parsed buffers violate
"every note has duration strictly greater than 0": a Note-On/Note-Off pair
at the same tick yields a note of duration 0; a Note-On left pending in
track 1 that is closed at a smaller tick value in track 2 (the tick counter
restarts per track while the pending-note map is shared) yields a note of
duration −0.5; and a single-track buffer whose time-division word is 0
divides by zero, yielding a note of duration `NaN`, for which `0 < d` is
false in double arithmetic. -/
theorem c2_counterexample :
    (parseMidiBuffer c2zeroBuf = Except.ok c2zeroData ∧
      ¬ ∀ n ∈ c2zeroData.notes, 0 < n.duration) ∧
    (parseMidiBuffer c2negBuf = Except.ok c2negData ∧
      ¬ ∀ n ∈ c2negData.notes, 0 < n.duration) ∧
    (parseMidiBufferJS c2nanBuf = Except.ok c2nanData ∧
      ¬ ∀ n ∈ c2nanData.notes, jsLt (JSVal.num 0) n.duration = true) := by
  refine ⟨⟨c2zero_parse_eq, ?_⟩, ⟨c2neg_parse_eq, ?_⟩, ⟨c2nan_parse_eq, ?_⟩⟩
  · intro h
    have := h _ (List.mem_singleton.2 rfl)
    norm_num [c2zeroData] at this
  · intro h
    have := h _ (List.mem_singleton.2 rfl)
    norm_num [c2negData] at this
  · intro h
    have := h _ (List.mem_singleton.2 rfl)
    simp [c2nanData, jsLt] at this

end MIDIParser

namespace MIDIParser

/-! ### Invariants of the track walk -/

theorem amGet_mem {m : ActiveMap} {k : ℕ} {p : ℕ × ℕ} (h : amGet m k = some p) :
    (k, p) ∈ m := by
  unfold amGet at h
  cases hf : m.find? (fun e => e.1 == k) with
  | none => rw [hf] at h; exact absurd h (by simp)
  | some e =>
    rw [hf] at h
    have he : e ∈ m := List.mem_of_find?_eq_some hf
    have hk : e.1 = k := by
      have := List.find?_some hf
      simpa using this
    simp only [Option.some.injEq] at h
    have : (k, p) = e := by
      rw [← hk, ← h]
    rwa [this]

theorem mem_amSet {m : ActiveMap} {k : ℕ} {v : ℕ × ℕ} {e : ℕ × ℕ × ℕ}
    (h : e ∈ amSet m k v) : e = (k, v) ∨ e ∈ m := by
  unfold amSet at h
  split at h
  · rcases List.mem_map.1 h with ⟨a, ha, hae⟩
    by_cases hk : a.1 == k
    · left; rw [← hae, if_pos hk]
    · right; rwa [← hae, if_neg hk]
  · rcases List.mem_append.1 h with ha | ha
    · right; exact ha
    · left; simpa using ha

theorem mem_amDelete {m : ActiveMap} {k : ℕ} {e : ℕ × ℕ × ℕ}
    (h : e ∈ amDelete m k) : e ∈ m :=
  (List.mem_filter.1 h).1

/-- Invariant preserved by the per-track event loop: every pending note was
opened at or before the current tick, and every completed event spans a
non-decreasing tick range.  (The tick counter only ever grows within a
track because delta times are non-negative.) -/
def WalkInv (s : WalkState) : Prop :=
  (∀ e ∈ s.active, e.2.1 ≤ s.currentTick) ∧
  (∀ ev ∈ s.events, ev.startTick ≤ ev.endTick)

theorem trackLoop_inv (buf : List ℕ) (trackEnd : ℕ) :
    ∀ (fuel : ℕ) (s r : WalkState),
      trackLoop buf trackEnd fuel s = Except.ok r → WalkInv s → WalkInv r := by
  intro fuel
  induction fuel with
  | zero => intro s r h _; exact absurd h (by simp [trackLoop])
  | succ fuel ih =>
    intro s r h hs
    have hstep : ∀ (t : WalkState), t.active = s.active → t.events = s.events →
        s.currentTick ≤ t.currentTick → WalkInv t := by
      intro t ha he htick
      refine ⟨?_, ?_⟩
      · intro e hm
        rw [ha] at hm
        exact Nat.le_trans (hs.1 e hm) htick
      · intro ev hm
        rw [he] at hm
        exact hs.2 ev hm
    rw [trackLoop] at h
    delta trackEventStep at h
    by_cases hg : s.offset < trackEnd ∧ s.offset < buf.length
    case neg =>
      rw [if_neg hg] at h
      exact Except.ok.inj h ▸ hs
    case pos =>
    rw [if_pos hg] at h
    by_cases hbd : buf.length ≤ s.offset + (readVariableLength buf s.offset).2
    case pos =>
      rw [if_pos hbd] at h
      cases Except.ok.inj h
      exact hstep _ rfl rfl (Nat.le_add_right _ _)
    case neg =>
    rw [if_neg hbd] at h
    rcases bindOk h with ⟨b, hb8, h⟩
    set status := if b < 128 then s.lastStatus else b with hstatus
    set ofs2 := if b < 128 then s.offset + (readVariableLength buf s.offset).2
      else s.offset + (readVariableLength buf s.offset).2 + 1 with hofs2
    by_cases h144 : status / 16 * 16 = 144
    · -- Note On (0x90)
      rw [if_pos h144] at h
      rcases bindOk h with ⟨note, hn8, h⟩
      rcases bindOk h with ⟨velocity, hv8, h⟩
      by_cases hvel : 0 < velocity
      · -- open a pending note at the current tick
        rw [if_pos hvel] at h
        refine ih _ _ h ⟨?_, hs.2⟩
        intro e he
        rcases mem_amSet he with rfl | he
        · exact Nat.le_refl _
        · exact Nat.le_trans (hs.1 e he) (Nat.le_add_right _ _)
      · -- velocity 0: close the pending note, if any
        rw [if_neg hvel] at h
        split at h
        next nOn hget =>
          refine ih _ _ h ⟨?_, ?_⟩
          · intro e he
            exact Nat.le_trans (hs.1 e (mem_amDelete he)) (Nat.le_add_right _ _)
          · intro ev hev
            rcases List.mem_append.1 hev with hev | hev
            · exact hs.2 ev hev
            · have hst := hs.1 _ (amGet_mem hget)
              simp only [List.mem_singleton] at hev
              subst hev
              exact Nat.le_trans hst (Nat.le_add_right _ _)
        next hget =>
          exact ih _ _ h (hstep _ rfl rfl (Nat.le_add_right _ _))
    rw [if_neg h144] at h
    by_cases h128 : status / 16 * 16 = 128
    · -- Note Off (0x80)
      rw [if_pos h128] at h
      rcases bindOk h with ⟨note, hn8, h⟩
      rcases bindOk h with ⟨velocity, hv8, h⟩
      split at h
      next nOn hget =>
        refine ih _ _ h ⟨?_, ?_⟩
        · intro e he
          exact Nat.le_trans (hs.1 e (mem_amDelete he)) (Nat.le_add_right _ _)
        · intro ev hev
          rcases List.mem_append.1 hev with hev | hev
          · exact hs.2 ev hev
          · have hst := hs.1 _ (amGet_mem hget)
            simp only [List.mem_singleton] at hev
            subst hev
            exact Nat.le_trans hst (Nat.le_add_right _ _)
      next hget =>
        exact ih _ _ h (hstep _ rfl rfl (Nat.le_add_right _ _))
    rw [if_neg h128] at h
    by_cases h176 : status / 16 * 16 = 176
    · rw [if_pos h176] at h
      exact ih _ _ h (hstep _ rfl rfl (Nat.le_add_right _ _))
    rw [if_neg h176] at h
    by_cases h192 : status / 16 * 16 = 192
    · rw [if_pos h192] at h
      exact ih _ _ h (hstep _ rfl rfl (Nat.le_add_right _ _))
    rw [if_neg h192] at h
    by_cases h208 : status / 16 * 16 = 208
    · rw [if_pos h208] at h
      exact ih _ _ h (hstep _ rfl rfl (Nat.le_add_right _ _))
    rw [if_neg h208] at h
    by_cases h224 : status / 16 * 16 = 224
    · rw [if_pos h224] at h
      exact ih _ _ h (hstep _ rfl rfl (Nat.le_add_right _ _))
    rw [if_neg h224] at h
    by_cases h255 : status = 255
    · -- Meta Event (0xFF)
      rw [if_pos h255] at h
      rcases bindOk h with ⟨metaType, hm8, h⟩
      by_cases htempo : metaType = 81 ∧ (readVariableLength buf (ofs2 + 1)).1 = 3
      · rw [if_pos htempo] at h
        rcases bindOk h with ⟨t0, ht0, h⟩
        rcases bindOk h with ⟨t1, ht1, h⟩
        rcases bindOk h with ⟨t2, ht2, h⟩
        exact ih _ _ h (hstep _ rfl rfl (Nat.le_add_right _ _))
      · rw [if_neg htempo] at h
        exact ih _ _ h (hstep _ rfl rfl (Nat.le_add_right _ _))
    rw [if_neg h255] at h
    by_cases hsysex : status = 240 ∨ status = 247
    · rw [if_pos hsysex] at h
      exact ih _ _ h (hstep _ rfl rfl (Nat.le_add_right _ _))
    · rw [if_neg hsysex] at h
      exact ih _ _ h (hstep _ rfl rfl (Nat.le_add_right _ _))

end MIDIParser

namespace MIDIParser

theorem tracksLoop_le_one (buf : List ℕ) :
    ∀ (remaining offset tempo : ℕ)
      (res : ℕ × ActiveMap × List NoteEvent),
      remaining ≤ 1 →
      tracksLoop buf remaining offset tempo [] [] = Except.ok res →
      ∀ ev ∈ res.2.2, ev.startTick ≤ ev.endTick := by
  intro remaining offset tempo res hr h
  cases remaining with
  | zero =>
    rw [tracksLoop] at h
    cases Except.ok.inj h
    intro ev hev
    exact absurd hev (List.not_mem_nil ev)
  | succ n =>
    have hn : n = 0 := by omega
    subst hn
    rw [tracksLoop] at h
    rcases bindOk h with ⟨h0, _, h⟩
    rcases bindOk h with ⟨h1, _, h⟩
    rcases bindOk h with ⟨h2, _, h⟩
    rcases bindOk h with ⟨h3, _, h⟩
    by_cases hmtrk : ¬(h0 = 77 ∧ h1 = 84 ∧ h2 = 114 ∧ h3 = 107)
    · rw [if_pos hmtrk] at h
      cases Except.ok.inj h
      intro ev hev
      exact absurd hev (List.not_mem_nil ev)
    · rw [if_neg hmtrk] at h
      rcases bindOk h with ⟨trackLength, _, h⟩
      rcases bindOk h with ⟨s, hwalk, h⟩
      rw [tracksLoop] at h
      cases Except.ok.inj h
      have hinv : WalkInv s :=
        trackLoop_inv buf _ _ _ _ hwalk
          ⟨fun e he => absurd he (List.not_mem_nil e),
           fun ev hev => absurd hev (List.not_mem_nil ev)⟩
      exact fun ev hev => hinv.2 ev hev

theorem parseEvents_singleTrack (buf : List ℕ) (p : ParseOut) (tc : ℕ)
    (h : parseEvents buf = Except.ok p)
    (htc : getUint16 buf 10 = Except.ok tc) (h1 : tc ≤ 1) :
    ∀ ev ∈ p.events, ev.startTick ≤ ev.endTick := by
  rw [parseEvents] at h
  rcases bindOk h with ⟨h0, _, h⟩
  rcases bindOk h with ⟨h1b, _, h⟩
  rcases bindOk h with ⟨h2, _, h⟩
  rcases bindOk h with ⟨h3, _, h⟩
  by_cases hhdr : ¬(h0 = 77 ∧ h1b = 84 ∧ h2 = 104 ∧ h3 = 100)
  · rw [if_pos hhdr] at h
    exact absurd h (by simp)
  · rw [if_neg hhdr] at h
    rcases bindOk h with ⟨fmt, _, h⟩
    rcases bindOk h with ⟨trackCount, htcr, h⟩
    rcases bindOk h with ⟨timeDivision, _, h⟩
    rcases bindOk h with ⟨r, hloop, h⟩
    have hpev : p.events = r.2.2 := by
      simp only [pure, Except.pure, Except.ok.injEq] at h
      rw [← h]
    have htcc : trackCount = tc := by
      rw [htcr] at htc
      exact Except.ok.inj htc
    rw [hpev]
    exact tracksLoop_le_one buf trackCount 14 500000 r (htcc ▸ h1) hloop

/-- Exact-model core of the amended C2: for a buffer whose header declares
at most one track, every note of a successful parse has non-negative
duration in the exact-rational model. -/
theorem singleTrack_duration_nonneg (buf : List ℕ) (d : MIDIData) (tc : ℕ)
    (hparse : parseMidiBuffer buf = Except.ok d)
    (htc : getUint16 buf 10 = Except.ok tc) (h1 : tc ≤ 1) :
    ∀ n ∈ d.notes, 0 ≤ n.duration := by
  rw [parseMidiBuffer] at hparse
  cases hpe : parseEvents buf with
  | error e =>
    rw [hpe] at hparse
    exact absurd hparse (by simp [Except.map])
  | ok p =>
    rw [hpe] at hparse
    simp only [Except.map, Except.ok.injEq] at hparse
    have hticks := parseEvents_singleTrack buf p tc hpe htc h1
    intro n hn
    rw [← hparse] at hn
    simp only [assembleMidiData] at hn
    have hmem := (List.perm_insertionSort noteLE _).mem_iff.1 hn
    rcases List.mem_map.1 hmem with ⟨e, he, hne⟩
    have hle : e.startTick ≤ e.endTick := hticks e he
    have hspt : 0 ≤ secondsPerTick p.tempo p.ticksPerBeat := by
      unfold secondsPerTick
      positivity
    rw [← hne]
    simp only [eventToNote]
    have hcast : (e.startTick : ℚ) ≤ (e.endTick : ℚ) := Nat.cast_le.2 hle
    have := mul_le_mul_of_nonneg_right hcast hspt
    linarith

/-- `parseMidiBufferJS` on `c1buf`: the double model agrees with the exact
one (both divisors, 500000 and 480, are nonzero). -/
theorem c1js_parse_eq :
    parseMidiBufferJS c1buf = Except.ok (jsOfData c1data) := by
  have h : parseEvents c1buf =
      Except.ok ⟨[⟨"C4", 0, 480, 100⟩], [], 500000, 480⟩ := rfl
  have hq : assembleMidiData ⟨[⟨"C4", 0, 480, 100⟩], [], 500000, 480⟩
      = c1data := by
    have hc := c1_parse_eq
    rw [parseMidiBuffer, h] at hc
    simpa [Except.map] using hc
  rw [parseMidiBufferJS, h]
  simp only [Except.map, Except.ok.injEq]
  rw [assembleMidiDataJS_agrees _ (by decide) (by decide), hq]

/-- **C2** (amended).  For every buffer whose header declares at most one
track and a nonzero ticks-per-beat (`timeDivision & 0x7FFF ≠ 0`), every
note of a successfully parsed score has duration ≥ 0 in double arithmetic.
(The strict bound of the original claim fails: a Note-On/Note-Off pair at
the same tick gives duration 0, a note closed across tracks gives a
negative duration, and with ticks-per-beat 0 the division by zero makes
the duration `NaN`, which is not ≥ 0 either — hence the added
nonzero-ticks-per-beat restriction.) -/
theorem c2_amended (buf : List ℕ) (d : JSMIDIData) (tc td : ℕ)
    (hparse : parseMidiBufferJS buf = Except.ok d)
    (htc : getUint16 buf 10 = Except.ok tc) (h1 : tc ≤ 1)
    (htd : getUint16 buf 12 = Except.ok td) (htpb : td % 32768 ≠ 0) :
    ∀ n ∈ d.notes, jsLe (JSVal.num 0) n.duration = true := by
  rw [parseMidiBufferJS] at hparse
  cases hpe : parseEvents buf with
  | error e =>
    rw [hpe] at hparse
    exact absurd hparse (by simp [Except.map])
  | ok p =>
    rw [hpe] at hparse
    simp only [Except.map, Except.ok.injEq] at hparse
    have htpb2 : p.ticksPerBeat ≠ 0 := by
      rw [parseEvents_ticksPerBeat buf p td hpe htd]
      exact htpb
    have hqparse : parseMidiBuffer buf = Except.ok (assembleMidiData p) := by
      rw [parseMidiBuffer, hpe]
      rfl
    have hq := singleTrack_duration_nonneg buf (assembleMidiData p) tc
      hqparse htc h1
    intro n hn
    rw [← hparse] at hn
    rw [assembleMidiDataJS_notes p htpb2] at hn
    rcases List.mem_map.1 hn with ⟨m, hm, hnm⟩
    have hd := hq m hm
    rw [← hnm]
    exact (jsLe_num_num 0 m.duration).2 hd

/-- Witness for `c2_amended` at the concrete single-track buffer `c1buf`
(one track, ticks-per-beat 480). -/
theorem c2_amended_witness :
    parseMidiBufferJS c1buf = Except.ok (jsOfData c1data) ∧
    getUint16 c1buf 10 = Except.ok 1 ∧ 1 ≤ 1 ∧
    getUint16 c1buf 12 = Except.ok 480 ∧ 480 % 32768 ≠ 0 ∧
    ∀ n ∈ (jsOfData c1data).notes, jsLe (JSVal.num 0) n.duration = true :=
  ⟨c1js_parse_eq, rfl, Nat.le_refl 1, rfl, by decide,
    c2_amended c1buf (jsOfData c1data) 1 480 c1js_parse_eq rfl (Nat.le_refl 1)
      rfl (by decide)⟩

end MIDIParser

namespace MIDIParser

instance : IsTotal MIDINote noteLE :=
  ⟨fun a b => le_total a.startTime b.startTime⟩

instance : IsTrans MIDINote noteLE :=
  ⟨fun _ _ _ hab hbc => le_trans hab hbc⟩

/-- Single-track SMF whose header time-division word is 0 and which
completes two notes: pitches 60 and 62 both open at tick 0 and close at
tick 480. -/
def c3nanBuf : List ℕ :=
  [77, 84, 104, 100, 0, 0, 0, 6, 0, 1, 0, 1, 0, 0,
   77, 84, 114, 107, 0, 0, 0, 21,
   0, 144, 60, 100,
   0, 144, 62, 100,
   131, 96, 128, 60, 64,
   0, 128, 62, 64,
   0, 255, 47, 0]

/-- Result of parsing `c3nanBuf` in the double model: `secondsPerTick` is
`Infinity`, so both notes get start time `0 * Infinity = NaN` and duration
`Infinity - NaN = NaN`.  (The order shown is the one produced by the
modelled insertion sort; on a `NaN` comparator ECMAScript leaves the order
implementation-defined, and `c3_counterexample` is stated for every
permutation.) -/
def c3nanData : JSMIDIData :=
  { notes := [{ note := "D4", startTime := JSVal.nan, duration := JSVal.nan,
                velocity := JSVal.num (100 / 127) },
              { note := "C4", startTime := JSVal.nan, duration := JSVal.nan,
                velocity := JSVal.num (100 / 127) }]
    duration := JSVal.inf
    tempo := JSVal.num 120
    timeSignature := (4, 4)
    tracks := [] }

theorem c3nan_parse_eq : parseMidiBufferJS c3nanBuf = Except.ok c3nanData := by
  have h : parseEvents c3nanBuf =
      Except.ok ⟨[⟨"C4", 0, 480, 100⟩, ⟨"D4", 0, 480, 100⟩], [], 500000, 0⟩ :=
    rfl
  rw [parseMidiBufferJS, h]
  simp only [Except.map, Except.ok.injEq]
  unfold assembleMidiDataJS secondsPerTickJS eventToNoteJS c3nanData
  norm_num [jsDiv, jsMul, jsSub, jsMax, jsRound, jsLe, jsNoteLE,
    List.insertionSort, List.orderedInsert, round_eq]

/-- **C3** (counterexample).  A buffer whose time-division word is 0 parses
successfully, but both completed notes receive start time `NaN`
(`0 * Infinity`), and since `NaN <= NaN` is false in double arithmetic the
resulting `notes` array is not sorted non-decreasing by `startTime` — in
any order the sort could emit (the statement quantifies over every
permutation of the output, so it does not depend on how the
implementation-defined sort with a `NaN` comparator is modelled). -/
theorem c3_counterexample :
    parseMidiBufferJS c3nanBuf = Except.ok c3nanData ∧
    (∀ n ∈ c3nanData.notes, n.startTime = JSVal.nan) ∧
    ∀ l, l.Perm c3nanData.notes → ¬ List.Sorted jsNoteLE l := by
  refine ⟨c3nan_parse_eq, by decide, ?_⟩
  intro l hperm hsort
  have hall : ∀ n ∈ c3nanData.notes, n.startTime = JSVal.nan := by decide
  have hlen : l.length = 2 := by
    rw [hperm.length_eq]
    rfl
  rcases l with _ | ⟨x, _ | ⟨y, _ | ⟨z, t⟩⟩⟩
  · exact absurd hlen (by simp)
  · exact absurd hlen (by simp)
  · have hx : x ∈ c3nanData.notes := hperm.mem_iff.1 (List.mem_cons_self x _)
    have hy : y ∈ c3nanData.notes :=
      hperm.mem_iff.1 (List.mem_cons_of_mem x (List.mem_cons_self y _))
    have hxy : jsNoteLE x y :=
      (List.sorted_cons.1 hsort).1 y (List.mem_cons_self y _)
    have hb : jsLe x.startTime y.startTime = true := hxy
    rw [hall x hx, hall y hy] at hb
    exact absurd hb (by decide)
  · exact absurd hlen (by simp)

/-- **C3** (amended).  For every buffer whose header's time-division word
has a nonzero ticks-per-beat field (`timeDivision & 0x7FFF ≠ 0`), the
`notes` array of a successfully parsed score is sorted non-decreasing by
`startTime` under the double comparison (the final
`notes.sort((a, b) => a.startTime - b.startTime)` of the source); with
ticks-per-beat 0 every start time is `NaN` and sortedness fails. -/
theorem c3_amended (buf : List ℕ) (d : JSMIDIData) (td : ℕ)
    (h : parseMidiBufferJS buf = Except.ok d)
    (htd : getUint16 buf 12 = Except.ok td) (htpb : td % 32768 ≠ 0) :
    List.Sorted jsNoteLE d.notes := by
  rw [parseMidiBufferJS] at h
  cases hpe : parseEvents buf with
  | error e =>
    rw [hpe] at h
    exact absurd h (by simp [Except.map])
  | ok p =>
    rw [hpe] at h
    simp only [Except.map, Except.ok.injEq] at h
    have htpb2 : p.ticksPerBeat ≠ 0 := by
      rw [parseEvents_ticksPerBeat buf p td hpe htd]
      exact htpb
    rw [← h, assembleMidiDataJS_notes p htpb2]
    refine sorted_map_jsOfNote ?_
    simp only [assembleMidiData]
    exact List.sorted_insertionSort noteLE _

/-- Witness for `c3_amended` at the concrete buffer `c1buf`
(ticks-per-beat 480). -/
theorem c3_amended_witness :
    parseMidiBufferJS c1buf = Except.ok (jsOfData c1data) ∧
    getUint16 c1buf 12 = Except.ok 480 ∧ 480 % 32768 ≠ 0 ∧
    List.Sorted jsNoteLE (jsOfData c1data).notes :=
  ⟨c1js_parse_eq, rfl, by decide,
    c3_amended c1buf (jsOfData c1data) 480 c1js_parse_eq rfl (by decide)⟩

/-- Two-track SMF in which track 1 contains a single Note-On for pitch 60
(velocity 100) at tick 0 and no Note-Off at all, while track 2 contains a
single Note-Off for pitch 60 at tick 480 and no Note-On. -/
def crossBuf : List ℕ :=
  [77, 84, 104, 100, 0, 0, 0, 6, 0, 1, 0, 2, 1, 224,
   77, 84, 114, 107, 0, 0, 0, 8,
   0, 144, 60, 100,
   0, 255, 47, 0,
   77, 84, 114, 107, 0, 0, 0, 9,
   131, 96, 128, 60, 64,
   0, 255, 47, 0]

/-- Result of parsing `crossBuf`: the Note-On pending at the end of track 1
is closed by the Note-Off of track 2, producing one completed note. -/
def crossData : MIDIData :=
  { notes := [{ note := "C4", startTime := 0, duration := 1 / 2,
                velocity := 100 / 127 }]
    duration := 1 / 2
    tempo := 120
    timeSignature := (4, 4)
    tracks := [] }

/-- **C5** (counterexample).  The active-notes map is *not* per-track: on
`crossBuf`, whose first track opens pitch 60 without ever closing it and
whose second track closes pitch 60 without ever opening it, the parser
emits one completed note (pending across the track boundary, closed by the
other track's Note-Off) and ends with an empty pending map. -/
theorem crossBuf_parse_eq : parseMidiBuffer crossBuf = Except.ok crossData := by
  have h : parseEvents crossBuf =
      Except.ok ⟨[⟨"C4", 0, 480, 100⟩], [], 500000, 480⟩ := rfl
  rw [parseMidiBuffer, h]
  simp only [Except.map, Except.ok.injEq]
  unfold assembleMidiData secondsPerTick eventToNote crossData
  simp [List.insertionSort, List.orderedInsert]
  norm_num [round_eq]

theorem c5_counterexample :
    parseMidiBuffer crossBuf = Except.ok crossData ∧
    parseEvents crossBuf =
      Except.ok ⟨[⟨"C4", 0, 480, 100⟩], [], 500000, 480⟩ ∧
    crossData.notes.length = 1 :=
  ⟨crossBuf_parse_eq, rfl, rfl⟩

end MIDIParser

namespace MIDIParser

/-- Like `crossBuf` but for pitch 72 (C5) with velocity 57: track 1 opens
the note and never closes it, track 2 closes it at tick 480. -/
def crossBuf2 : List ℕ :=
  [77, 84, 104, 100, 0, 0, 0, 6, 0, 1, 0, 2, 1, 224,
   77, 84, 114, 107, 0, 0, 0, 8,
   0, 144, 72, 57,
   0, 255, 47, 0,
   77, 84, 114, 107, 0, 0, 0, 9,
   131, 96, 128, 72, 64,
   0, 255, 47, 0]

/-- Result of parsing `crossBuf2`. -/
def crossData2 : MIDIData :=
  { notes := [{ note := "C5", startTime := 0, duration := 1 / 2,
                velocity := 57 / 127 }]
    duration := 1 / 2
    tempo := 120
    timeSignature := (4, 4)
    tracks := [] }

/-- **C5** (amended).  The `activeNotes` map is declared outside the track
loop and is therefore shared across tracks: a Note-On left pending at the
end of one track carries over to the next track and is closed there by a
matching Note-Off, producing a completed note whose start tick comes from
the opening track and whose end tick from the closing track — exhibited
here at two different pitches and velocities (pitch 60 velocity 100, and
pitch 72 velocity 57), each leaving an empty pending map behind. -/
theorem c5_amended :
    (parseEvents crossBuf).map (fun r => (r.events, r.leftover)) =
      Except.ok ([⟨"C4", 0, 480, 100⟩], []) ∧
    (parseEvents crossBuf2).map (fun r => (r.events, r.leftover)) =
      Except.ok ([⟨"C5", 0, 480, 57⟩], []) ∧
    parseMidiBuffer crossBuf = Except.ok crossData ∧
    parseMidiBuffer crossBuf2 = Except.ok crossData2 := by
  refine ⟨rfl, rfl, crossBuf_parse_eq, ?_⟩
  have h : parseEvents crossBuf2 =
      Except.ok ⟨[⟨"C5", 0, 480, 57⟩], [], 500000, 480⟩ := rfl
  rw [parseMidiBuffer, h]
  simp only [Except.map, Except.ok.injEq]
  unfold assembleMidiData secondsPerTick eventToNote crossData2
  simp [List.insertionSort, List.orderedInsert]
  norm_num [round_eq]

end MIDIParser

namespace MIDIParser

theorem okBind {α β : Type} (f : α → Except String β) (a : α) :
    Except.ok a >>= f = f a :=
  Eq.refl (f a)

/-- **C4**.  On every byte buffer whose first four bytes are not the ASCII
characters `MThd` — including buffers shorter than four bytes — `parse`
fails with an error (either the magic-header check or an out-of-range
header read) and returns no `Score`. -/
theorem c4_bad_header (buf : List ℕ) (hbytes : ∀ b ∈ buf, b < 256)
    (hhdr : buf.take 4 ≠ [77, 84, 104, 100]) :
    ∃ msg, parseMidiBuffer buf = Except.error msg := by
  match buf, hbytes, hhdr with
  | [], _, _ => exact ⟨"RangeError", rfl⟩
  | [b0], _, _ => exact ⟨"RangeError", rfl⟩
  | [b0, b1], _, _ => exact ⟨"RangeError", rfl⟩
  | [b0, b1, b2], _, _ => exact ⟨"RangeError", rfl⟩
  | b0 :: b1 :: b2 :: b3 :: rest, hbytes, hhdr =>
    have h0 : b0 % 256 = b0 := Nat.mod_eq_of_lt (hbytes b0 (by simp))
    have h1 : b1 % 256 = b1 := Nat.mod_eq_of_lt (hbytes b1 (by simp))
    have h2 : b2 % 256 = b2 := Nat.mod_eq_of_lt (hbytes b2 (by simp))
    have h3 : b3 % 256 = b3 := Nat.mod_eq_of_lt (hbytes b3 (by simp))
    have hcond : ¬(b0 % 256 = 77 ∧ b1 % 256 = 84 ∧ b2 % 256 = 104 ∧
        b3 % 256 = 100) := by
      rw [h0, h1, h2, h3]
      rintro ⟨c0, c1, c2, c3⟩
      exact hhdr (by simp [c0, c1, c2, c3])
    refine ⟨"not a valid MIDI file", ?_⟩
    have hpe : parseEvents (b0 :: b1 :: b2 :: b3 :: rest) =
        Except.error "not a valid MIDI file" := by
      rw [parseEvents]
      simp only [getUint8, List.getElem?_cons_zero, List.getElem?_cons_succ,
        okBind]
      rw [if_pos hcond]
    rw [parseMidiBuffer, hpe]
    rfl

/-- Witness for `c4_bad_header` at the concrete buffer beginning with
`"XXXX"` (0x58 repeated). -/
theorem c4_bad_header_witness :
    (∀ b ∈ [88, 88, 88, 88, 0, 0, 0, 6], b < 256) ∧
    List.take 4 [88, 88, 88, 88, 0, 0, 0, 6] ≠ [77, 84, 104, 100] ∧
    ∃ msg, parseMidiBuffer [88, 88, 88, 88, 0, 0, 0, 6] = Except.error msg :=
  ⟨by decide, by decide,
    c4_bad_header [88, 88, 88, 88, 0, 0, 0, 6] (by decide) (by decide)⟩

end MIDIParser

namespace MIDIParser

theorem rvlGo_spec (buf : List ℕ) (offset : ℕ) :
    ∀ (fuel value bytesRead : ℕ), bytesRead + fuel = 4 →
      bytesRead ≤ (rvlGo buf offset fuel value bytesRead).2 ∧
      (rvlGo buf offset fuel value bytesRead).2 ≤ 4 ∧
      (∀ i, bytesRead ≤ i → i < (rvlGo buf offset fuel value bytesRead).2 →
        offset + i < buf.length) ∧
      (rvlGo buf offset fuel value bytesRead).1 =
        ((buf.drop (offset + bytesRead)).take
            ((rvlGo buf offset fuel value bytesRead).2 - bytesRead)).foldl
          (fun a b => a * 128 + b % 256 % 128) value ∧
      (∀ i, bytesRead ≤ i → i + 1 < (rvlGo buf offset fuel value bytesRead).2 →
        128 ≤ buf.getD (offset + i) 0 % 256) := by
  intro fuel
  induction fuel with
  | zero =>
    intro value bytesRead hf
    rw [rvlGo]
    refine ⟨Nat.le_refl _, by omega, fun i hi hi2 => absurd hi2 (by omega),
      ?_, fun i hi hi2 => absurd hi2 (by omega)⟩
    simp
  | succ fuel ih =>
    intro value bytesRead hf
    rw [rvlGo]
    by_cases hend : buf.length ≤ offset + bytesRead
    · rw [if_pos hend]
      refine ⟨Nat.le_refl _, by omega, fun i hi hi2 => absurd hi2 (by omega),
        ?_, fun i hi hi2 => absurd hi2 (by omega)⟩
      simp
    · rw [if_neg hend]
      have hlt : offset + bytesRead < buf.length := by omega
      have hgetD : buf.getD (offset + bytesRead) 0 = buf[offset + bytesRead] :=
        List.getD_eq_getElem buf 0 hlt
      by_cases hcont : 128 ≤ buf.getD (offset + bytesRead) 0 % 256 ∧
          bytesRead + 1 < 4
      · rw [if_pos hcont]
        obtain ⟨hle, hle4, hbound, hval, hbit⟩ :=
          ih (value * 128 + buf.getD (offset + bytesRead) 0 % 256 % 128)
            (bytesRead + 1) (by omega)
        refine ⟨by omega, hle4, ?_, ?_, ?_⟩
        · intro i hi hi2
          rcases Nat.eq_or_lt_of_le hi with rfl | hi
          · exact hlt
          · exact hbound i hi hi2
        · have hsub : (rvlGo buf offset fuel
              (value * 128 + buf.getD (offset + bytesRead) 0 % 256 % 128)
              (bytesRead + 1)).2 - bytesRead =
              ((rvlGo buf offset fuel
                (value * 128 + buf.getD (offset + bytesRead) 0 % 256 % 128)
                (bytesRead + 1)).2 - (bytesRead + 1)) + 1 := by omega
          rw [hsub, List.drop_eq_getElem_cons hlt, List.take_succ_cons,
            List.foldl_cons, ← hgetD]
          have : offset + (bytesRead + 1) = offset + bytesRead + 1 := by omega
          rw [← this]
          exact hval
        · intro i hi hi2
          rcases Nat.eq_or_lt_of_le hi with rfl | hi
          · exact hcont.1
          · exact hbit i hi hi2
      · rw [if_neg hcont]
        refine ⟨by omega, by omega, ?_, ?_, ?_⟩
        · intro i hi hi2
          have : i = bytesRead := by omega
          subst this
          exact hlt
        · have hsub : bytesRead + 1 - bytesRead = 1 := by omega
          rw [hsub, List.drop_eq_getElem_cons hlt, List.take_succ_cons,
            List.take_zero, List.foldl_cons, List.foldl_nil, ← hgetD]
        · intro i hi hi2
          omega
  
/-- **C6**.  For every buffer and starting offset, `readVariableLength`
reads at most 4 bytes, every index it reads lies strictly inside the
buffer, the returned value is the left fold concatenating the low 7 bits
of the bytes read (most significant group first), and every byte before
the last one read has its high bit set (the loop stops at the first byte
whose high bit is clear). -/
theorem c6_readVariableLength_spec (buf : List ℕ) (offset : ℕ) :
    (readVariableLength buf offset).2 ≤ 4 ∧
    (∀ i < (readVariableLength buf offset).2, offset + i < buf.length) ∧
    (readVariableLength buf offset).1 =
      ((buf.drop offset).take (readVariableLength buf offset).2).foldl
        (fun a b => a * 128 + b % 128) 0 ∧
    (∀ i, i + 1 < (readVariableLength buf offset).2 →
      128 ≤ buf.getD (offset + i) 0 % 256) := by
  obtain ⟨hle, hle4, hbound, hval, hbit⟩ := rvlGo_spec buf offset 4 0 0 rfl
  have hfun : (fun (a b : ℕ) => a * 128 + b % 256 % 128) =
      (fun (a b : ℕ) => a * 128 + b % 128) := by
    funext a b
    rw [Nat.mod_mod_of_dvd b (by norm_num)]
  rw [readVariableLength]
  refine ⟨hle4, fun i hi => by simpa using hbound i (Nat.zero_le i) hi, ?_,
    fun i hi => hbit i (Nat.zero_le i) hi⟩
  rw [← hfun]
  simpa using hval

/-- Witness for `c6_readVariableLength_spec` at the two-byte quantity
`0x83 0x60` (= 480) followed by a stray byte. -/
theorem c6_readVariableLength_spec_witness :
    (readVariableLength [131, 96, 7] 0).2 ≤ 4 ∧
    (∀ i < (readVariableLength [131, 96, 7] 0).2, 0 + i < ([131, 96, 7] : List ℕ).length) ∧
    (readVariableLength [131, 96, 7] 0).1 =
      ((([131, 96, 7] : List ℕ).drop 0).take (readVariableLength [131, 96, 7] 0).2).foldl
        (fun a b => a * 128 + b % 128) 0 ∧
    (∀ i, i + 1 < (readVariableLength [131, 96, 7] 0).2 →
      128 ≤ ([131, 96, 7] : List ℕ).getD (0 + i) 0 % 256) :=
  c6_readVariableLength_spec [131, 96, 7] 0

end MIDIParser

namespace MIDIParser

theorem getUint8_ok {buf : List ℕ} {i x : ℕ} (h : getUint8 buf i = Except.ok x) :
    buf.getD i 0 % 256 = x := by
  unfold getUint8 at h
  cases hg : buf[i]? with
  | none => rw [hg] at h; exact absurd h (by simp)
  | some b =>
    rw [hg] at h
    simp only [Except.ok.injEq] at h
    rw [List.getD, List.get?_eq_getElem?, hg, Option.getD_some, h]

theorem getUint16_ok {buf : List ℕ} {i x : ℕ} (h : getUint16 buf i = Except.ok x) :
    buf.getD i 0 % 256 * 256 + buf.getD (i + 1) 0 % 256 = x := by
  rw [getUint16] at h
  rcases bindOk h with ⟨b0, h0, h⟩
  rcases bindOk h with ⟨b1, h1, h⟩
  simp only [pure, Except.pure, Except.ok.injEq] at h
  rw [getUint8_ok h0, getUint8_ok h1, h]

theorem getUint32_ok {buf : List ℕ} {i x : ℕ} (h : getUint32 buf i = Except.ok x) :
    buf.getD i 0 % 256 * 16777216 + buf.getD (i + 1) 0 % 256 * 65536 +
      buf.getD (i + 2) 0 % 256 * 256 + buf.getD (i + 3) 0 % 256 = x := by
  rw [getUint32] at h
  rcases bindOk h with ⟨b0, h0, h⟩
  rcases bindOk h with ⟨b1, h1, h⟩
  rcases bindOk h with ⟨b2, h2, h⟩
  rcases bindOk h with ⟨b3, h3, h⟩
  simp only [pure, Except.pure, Except.ok.injEq] at h
  rw [getUint8_ok h0, getUint8_ok h1, getUint8_ok h2, getUint8_ok h3, h]

/-- Specification-level scanner used to *state* C10: it follows exactly the
control flow of one `trackEventStep` iteration (offsets, running status,
skip lengths) but, instead of pairing notes, collects the pitch names of
every close event encountered — a true Note-Off, or a Note-On with
velocity 0.  Bytes are read with the total `List.getD`; on every path on
which the real walk succeeds the two agree (where the real walk would
throw, the collected names are irrelevant because the theorems below are
conditioned on a successful parse). -/
def scanAfterByte (buf : List ℕ) (_trackEnd : ℕ)
    (next : ℕ → ℕ → List String) (lastStatus0 ofs1 b : ℕ) : List String :=
  let status := if b < 128 then lastStatus0 else b
  let offset := if b < 128 then ofs1 else ofs1 + 1
  let lastStatus := if b < 128 then lastStatus0 else b
  let messageType := status / 16 * 16
  if messageType = 144 then
    if 0 < buf.getD (offset + 1) 0 % 256 then next (offset + 2) lastStatus
    else midiNoteToName (buf.getD offset 0 % 256) :: next (offset + 2) lastStatus
  else if messageType = 128 then
    midiNoteToName (buf.getD offset 0 % 256) :: next (offset + 2) lastStatus
  else if messageType = 176 then next (offset + 2) lastStatus
  else if messageType = 192 then next (offset + 1) lastStatus
  else if messageType = 208 then next (offset + 1) lastStatus
  else if messageType = 224 then next (offset + 2) lastStatus
  else if status = 255 then
    next (offset + 1 + (readVariableLength buf (offset + 1)).2 +
      (readVariableLength buf (offset + 1)).1) lastStatus
  else if status = 240 ∨ status = 247 then
    next (offset + (readVariableLength buf offset).2 +
      (readVariableLength buf offset).1) lastStatus
  else next offset lastStatus

/-- One scanner iteration: the loop guard, the delta time, and the status
byte, then `scanAfterByte`. -/
def closeScanStep (buf : List ℕ) (trackEnd : ℕ)
    (next : ℕ → ℕ → List String) (offset0 lastStatus0 : ℕ) : List String :=
  if offset0 < trackEnd ∧ offset0 < buf.length then
    if buf.length ≤ offset0 + (readVariableLength buf offset0).2 then []
    else
      scanAfterByte buf trackEnd next lastStatus0
        (offset0 + (readVariableLength buf offset0).2)
        (buf.getD (offset0 + (readVariableLength buf offset0).2) 0 % 256)
  else []

/-- Fueled iteration of `closeScanStep` over one track. -/
def closeScanTrack (buf : List ℕ) (trackEnd : ℕ) : ℕ → ℕ → ℕ → List String
  | 0, _, _ => []
  | fuel + 1, offset0, lastStatus0 =>
    closeScanStep buf trackEnd (closeScanTrack buf trackEnd fuel) offset0 lastStatus0

/-- Close-event names across all tracks, mirroring `tracksLoop` (the track
length is the big-endian 32-bit word after the `MTrk` magic). -/
def closeScanTracks (buf : List ℕ) : ℕ → ℕ → List String
  | 0, _ => []
  | remaining + 1, offset =>
    if ¬(buf.getD offset 0 % 256 = 77 ∧ buf.getD (offset + 1) 0 % 256 = 84 ∧
         buf.getD (offset + 2) 0 % 256 = 114 ∧ buf.getD (offset + 3) 0 % 256 = 107)
    then []
    else
      closeScanTrack buf
          (offset + 8 + (buf.getD (offset + 4) 0 % 256 * 16777216 +
            buf.getD (offset + 5) 0 % 256 * 65536 +
            buf.getD (offset + 6) 0 % 256 * 256 + buf.getD (offset + 7) 0 % 256))
          (buf.length + 1) (offset + 8) 0 ++
        closeScanTracks buf remaining
          (offset + 8 + (buf.getD (offset + 4) 0 % 256 * 16777216 +
            buf.getD (offset + 5) 0 % 256 * 65536 +
            buf.getD (offset + 6) 0 % 256 * 256 + buf.getD (offset + 7) 0 % 256))

/-- The pitch names for which the byte stream contains *any* close event
(Note-Off or velocity-0 Note-On), mirroring `parseEvents`. -/
def closedNamesOf (buf : List ℕ) : List String :=
  if ¬(buf.getD 0 0 % 256 = 77 ∧ buf.getD 1 0 % 256 = 84 ∧
       buf.getD 2 0 % 256 = 104 ∧ buf.getD 3 0 % 256 = 100) then []
  else closeScanTracks buf (buf.getD 10 0 % 256 * 256 + buf.getD 11 0 % 256) 14

theorem trackLoop_closeScan (buf : List ℕ) (trackEnd : ℕ) :
    ∀ (fuel : ℕ) (s r : WalkState),
      trackLoop buf trackEnd fuel s = Except.ok r →
      ∀ ev ∈ r.events, ev ∈ s.events ∨
        ev.note ∈ closeScanTrack buf trackEnd fuel s.offset s.lastStatus := by
  intro fuel
  induction fuel with
  | zero => intro s r h _; exact fun _ => absurd h (by simp [trackLoop])
  | succ fuel ih =>
    intro s r h ev hev
    rw [trackLoop] at h
    delta trackEventStep at h
    rw [closeScanTrack]
    delta closeScanStep
    by_cases hg : s.offset < trackEnd ∧ s.offset < buf.length
    case neg =>
      rw [if_neg hg] at h ⊢
      cases Except.ok.inj h
      exact Or.inl hev
    case pos =>
    rw [if_pos hg] at h ⊢
    by_cases hbd : buf.length ≤ s.offset + (readVariableLength buf s.offset).2
    case pos =>
      rw [if_pos hbd] at h ⊢
      cases Except.ok.inj h
      exact Or.inl hev
    case neg =>
    rw [if_neg hbd] at h ⊢
    rcases bindOk h with ⟨b, hb8, h⟩
    rw [getUint8_ok hb8]
    delta scanAfterByte
    set status := if b < 128 then s.lastStatus else b with hstatus
    set ofs2 := if b < 128 then s.offset + (readVariableLength buf s.offset).2
      else s.offset + (readVariableLength buf s.offset).2 + 1 with hofs2
    by_cases h144 : status / 16 * 16 = 144
    · -- Note On (0x90)
      rw [if_pos h144] at h ⊢
      rcases bindOk h with ⟨note, hn8, h⟩
      rcases bindOk h with ⟨velocity, hv8, h⟩
      rw [getUint8_ok hn8, getUint8_ok hv8]
      by_cases hvel : 0 < velocity
      · rw [if_pos hvel] at h ⊢
        exact ih _ _ h ev hev
      · rw [if_neg hvel] at h ⊢
        split at h
        next nOn hget =>
          rcases ih _ _ h ev hev with hmem | hmem
          · rcases List.mem_append.1 hmem with hmem | hmem
            · exact Or.inl hmem
            · simp only [List.mem_singleton] at hmem
              subst hmem
              exact Or.inr (List.mem_cons_self _ _)
          · exact Or.inr (List.mem_cons_of_mem _ hmem)
        next hget =>
          rcases ih _ _ h ev hev with hmem | hmem
          · exact Or.inl hmem
          · exact Or.inr (List.mem_cons_of_mem _ hmem)
    rw [if_neg h144] at h ⊢
    by_cases h128 : status / 16 * 16 = 128
    · -- Note Off (0x80)
      rw [if_pos h128] at h ⊢
      rcases bindOk h with ⟨note, hn8, h⟩
      rcases bindOk h with ⟨velocity, hv8, h⟩
      rw [getUint8_ok hn8]
      split at h
      next nOn hget =>
        rcases ih _ _ h ev hev with hmem | hmem
        · rcases List.mem_append.1 hmem with hmem | hmem
          · exact Or.inl hmem
          · simp only [List.mem_singleton] at hmem
            subst hmem
            exact Or.inr (List.mem_cons_self _ _)
        · exact Or.inr (List.mem_cons_of_mem _ hmem)
      next hget =>
        rcases ih _ _ h ev hev with hmem | hmem
        · exact Or.inl hmem
        · exact Or.inr (List.mem_cons_of_mem _ hmem)
    rw [if_neg h128] at h ⊢
    by_cases h176 : status / 16 * 16 = 176
    · rw [if_pos h176] at h ⊢
      exact ih _ _ h ev hev
    rw [if_neg h176] at h ⊢
    by_cases h192 : status / 16 * 16 = 192
    · rw [if_pos h192] at h ⊢
      exact ih _ _ h ev hev
    rw [if_neg h192] at h ⊢
    by_cases h208 : status / 16 * 16 = 208
    · rw [if_pos h208] at h ⊢
      exact ih _ _ h ev hev
    rw [if_neg h208] at h ⊢
    by_cases h224 : status / 16 * 16 = 224
    · rw [if_pos h224] at h ⊢
      exact ih _ _ h ev hev
    rw [if_neg h224] at h ⊢
    by_cases h255 : status = 255
    · -- Meta Event (0xFF)
      rw [if_pos h255] at h ⊢
      rcases bindOk h with ⟨metaType, hm8, h⟩
      by_cases htempo : metaType = 81 ∧ (readVariableLength buf (ofs2 + 1)).1 = 3
      · rw [if_pos htempo] at h
        rcases bindOk h with ⟨t0, ht0, h⟩
        rcases bindOk h with ⟨t1, ht1, h⟩
        rcases bindOk h with ⟨t2, ht2, h⟩
        exact ih _ _ h ev hev
      · rw [if_neg htempo] at h
        exact ih _ _ h ev hev
    rw [if_neg h255] at h ⊢
    by_cases hsysex : status = 240 ∨ status = 247
    · rw [if_pos hsysex] at h ⊢
      exact ih _ _ h ev hev
    · rw [if_neg hsysex] at h ⊢
      exact ih _ _ h ev hev

end MIDIParser

namespace MIDIParser

theorem tracksLoop_closeScan (buf : List ℕ) :
    ∀ (remaining offset tempo : ℕ) (active : ActiveMap)
      (events : List NoteEvent) (res : ℕ × ActiveMap × List NoteEvent),
      tracksLoop buf remaining offset tempo active events = Except.ok res →
      ∀ ev ∈ res.2.2, ev ∈ events ∨
        ev.note ∈ closeScanTracks buf remaining offset := by
  intro remaining
  induction remaining with
  | zero =>
    intro offset tempo active events res h ev hev
    rw [tracksLoop] at h
    cases Except.ok.inj h
    exact Or.inl hev
  | succ n ih =>
    intro offset tempo active events res h ev hev
    rw [tracksLoop] at h
    rw [closeScanTracks]
    rcases bindOk h with ⟨h0, hh0, h⟩
    rcases bindOk h with ⟨h1, hh1, h⟩
    rcases bindOk h with ⟨h2, hh2, h⟩
    rcases bindOk h with ⟨h3, hh3, h⟩
    rw [getUint8_ok hh0, getUint8_ok hh1, getUint8_ok hh2, getUint8_ok hh3]
    by_cases hmtrk : ¬(h0 = 77 ∧ h1 = 84 ∧ h2 = 114 ∧ h3 = 107)
    · rw [if_pos hmtrk] at h ⊢
      cases Except.ok.inj h
      exact Or.inl hev
    · rw [if_neg hmtrk] at h ⊢
      rcases bindOk h with ⟨trackLength, htl, h⟩
      rw [getUint32_ok htl]
      rcases bindOk h with ⟨sWalk, hwalk, h⟩
      have htrack := trackLoop_closeScan buf (offset + 8 + trackLength)
        (buf.length + 1) _ sWalk hwalk
      rcases ih (offset + 8 + trackLength) sWalk.tempo sWalk.active
          sWalk.events res h ev hev with hmem | hmem
      · rcases htrack ev hmem with hmem2 | hmem2
        · exact Or.inl hmem2
        · exact Or.inr (List.mem_append.2 (Or.inl hmem2))
      · exact Or.inr (List.mem_append.2 (Or.inr hmem))

theorem parseEvents_closeScan (buf : List ℕ) (p : ParseOut)
    (h : parseEvents buf = Except.ok p) :
    ∀ ev ∈ p.events, ev.note ∈ closedNamesOf buf := by
  rw [parseEvents] at h
  unfold closedNamesOf
  rcases bindOk h with ⟨h0, hh0, h⟩
  rcases bindOk h with ⟨h1, hh1, h⟩
  rcases bindOk h with ⟨h2, hh2, h⟩
  rcases bindOk h with ⟨h3, hh3, h⟩
  rw [getUint8_ok hh0, getUint8_ok hh1, getUint8_ok hh2, getUint8_ok hh3]
  by_cases hhdr : ¬(h0 = 77 ∧ h1 = 84 ∧ h2 = 104 ∧ h3 = 100)
  · rw [if_pos hhdr] at h
    exact absurd h (by simp)
  · rw [if_neg hhdr] at h ⊢
    rcases bindOk h with ⟨fmt, hfmt, h⟩
    rcases bindOk h with ⟨trackCount, htc, h⟩
    rcases bindOk h with ⟨timeDivision, htd, h⟩
    rcases bindOk h with ⟨r, hloop, h⟩
    rw [getUint16_ok htc]
    have hpev : p.events = r.2.2 := by
      simp only [pure, Except.pure, Except.ok.injEq] at h
      rw [← h]
    intro ev hev
    rw [hpev] at hev
    rcases tracksLoop_closeScan buf trackCount 14 500000 [] [] r hloop ev hev
        with hmem | hmem
    · exact absurd hmem (List.not_mem_nil ev)
    · exact hmem

/-- Single-track SMF (480 ticks/beat) whose only channel event is a Note-On
for pitch 60, velocity 100, at tick 0 — never closed. -/
def unmatchedBuf : List ℕ :=
  [77, 84, 104, 100, 0, 0, 0, 6, 0, 1, 0, 1, 1, 224,
   77, 84, 114, 107, 0, 0, 0, 8,
   0, 144, 60, 100,
   0, 255, 47, 0]

/-- **C10**.  (i) In general: if a pitch name receives no close event
anywhere in the byte stream (`closedNamesOf`, the specification-level scan
of the same walk), then no note with that name appears in a successfully
parsed `Score` — an unmatched Note-On contributes nothing, because notes
are emitted only when a close event finds the pending entry, and the
entries still pending at the end are discarded by the final conversion.
(ii) Concretely: a buffer whose only event is a Note-On parses without
error; the pending note is visible in the final `activeNotes` map but the
returned `Score` has no notes. -/
theorem c10_unmatched_noteOn :
    (∀ (buf : List ℕ) (d : MIDIData) (name : String),
        parseMidiBuffer buf = Except.ok d → name ∉ closedNamesOf buf →
        ∀ n ∈ d.notes, n.note ≠ name) ∧
    parseEvents unmatchedBuf = Except.ok ⟨[], [(60, 0, 100)], 500000, 480⟩ ∧
    parseMidiBuffer unmatchedBuf = Except.ok ⟨[], 0, 120, (4, 4), []⟩ := by
  refine ⟨?_, rfl, ?_⟩
  · intro buf d name hparse hname n hn
    rw [parseMidiBuffer] at hparse
    cases hpe : parseEvents buf with
    | error e =>
      rw [hpe] at hparse
      exact absurd hparse (by simp [Except.map])
    | ok p =>
      rw [hpe] at hparse
      simp only [Except.map, Except.ok.injEq] at hparse
      rw [← hparse] at hn
      simp only [assembleMidiData] at hn
      have hmem := (List.perm_insertionSort noteLE _).mem_iff.1 hn
      rcases List.mem_map.1 hmem with ⟨e, he, hne⟩
      have hclosed : e.note ∈ closedNamesOf buf :=
        parseEvents_closeScan buf p hpe e he
      intro hcontra
      rw [← hne] at hcontra
      simp only [eventToNote] at hcontra
      exact hname (hcontra ▸ hclosed)
  · have h : parseEvents unmatchedBuf =
        Except.ok ⟨[], [(60, 0, 100)], 500000, 480⟩ := rfl
    rw [parseMidiBuffer, h]
    simp only [Except.map, Except.ok.injEq]
    unfold assembleMidiData
    simp [List.insertionSort]
    norm_num [round_eq]

/-- Witness for the general part of `c10_unmatched_noteOn`: on `c1buf` the
only closed name is `"C4"`, so no note named `"A0"` can appear. -/
theorem c10_unmatched_noteOn_witness :
    parseMidiBuffer c1buf = Except.ok c1data ∧
    "A0" ∉ closedNamesOf c1buf ∧
    ∀ n ∈ c1data.notes, n.note ≠ "A0" :=
  ⟨c1_parse_eq, by decide,
    c10_unmatched_noteOn.1 c1buf c1data "A0" c1_parse_eq (by decide)⟩

end MIDIParser

/-!
### The playback viewer (`components/MIDIViewer.tsx`)

The transport state of the `MIDIViewer` component: `isPlaying`,
`currentTime`, the `activeNotes` highlight list, and `playedNotesRef`, the
set of already-triggered note identities.  A note identity is the string
`` `${note.note}-${note.startTime}-${index}` ``, modelled as the tuple
`(note, startTime, index)` (the string is determined by exactly these three
components).  Wall-clock bookkeeping (`startTimeRef`, `speed`) is modelled
by feeding each animation frame its `adjustedTime` directly; the pieces
that only touch the audio backend (`AudioManager.playNote`, `stopAll`) and
the UI are external effects.
-/

namespace MIDIViewer

open MIDIParser

abbrev NoteId := String × ℚ × ℕ

/-- `` `${note.note}-${note.startTime}-${index}` ``. -/
def noteId (n : MIDINote) (index : ℕ) : NoteId := (n.note, n.startTime, index)

structure ViewerState where
  isPlaying : Bool
  currentTime : ℚ
  activeNotes : List String
  playedNotes : List NoteId
deriving DecidableEq

/-- The loop shared by `handleSeek`, `handlePlayPause` and
`handleProgressBarPress`: collect the ids of all notes with
`note.startTime < t`. -/
def pastNoteIds (notes : List MIDINote) (t : ℚ) : List NoteId :=
  notes.enum.filterMap fun p =>
    if p.2.startTime < t then some (noteId p.2 p.1) else none

/-- `handleStop`: stop playback, rewind, clear highlights and the
played-notes record (also cancels the animation frame and calls
`AudioManager.stopAll()`, both external effects). -/
def handleStop (_s : ViewerState) : ViewerState :=
  { isPlaying := false, currentTime := 0, activeNotes := [], playedNotes := [] }

/-- `handleSeek(time)`: stop if playing, set the new time, and re-mark
exactly the notes lying strictly before the new time as already played. -/
def handleSeek (notes : List MIDINote) (s : ViewerState) (time : ℚ) :
    ViewerState :=
  let s1 := if s.isPlaying then handleStop s else s
  { s1 with currentTime := time, playedNotes := pastNoteIds notes time }

/-- `handlePlayPause`: no-op (an alert) on an empty score; pause when
playing; otherwise start playing, recomputing the played-notes record from
the current time (the wall-clock origin `startTimeRef` is set so that the
subsequent frames see `adjustedTime` continuing from `currentTime`). -/
def handlePlayPause (notes : List MIDINote) (s : ViewerState) : ViewerState :=
  if notes.length = 0 then s
  else if s.isPlaying then { s with isPlaying := false }
  else { s with isPlaying := true,
                playedNotes := pastNoteIds notes s.currentTime }

/-- The trigger loop of one `animate` frame at adjusted time `τ`: every
note with `startTime - 0.05 ≤ τ < startTime + 0.1` whose id is not yet in
the played set fires (`AudioManager.playNote`) and is recorded. -/
def frameTriggers (notes : List MIDINote) (played : List NoteId) (τ : ℚ) :
    List NoteId :=
  notes.enum.filterMap fun p =>
    if (p.2.startTime - 1 / 20 ≤ τ ∧ τ < p.2.startTime + 1 / 10) ∧
        noteId p.2 p.1 ∉ played
    then some (noteId p.2 p.1) else none

/-- One `animate` frame at adjusted time `τ`: set `currentTime`, compute
the highlight list, fire and record the due notes, then — when the score
end is passed — `handleStop` and signal playback end.  When the component
is paused no frame is scheduled, so a frame on a paused state is a no-op.
Returns the new state and the list of ids triggered in this frame. -/
def animate (notes : List MIDINote) (duration : ℚ) (s : ViewerState)
    (τ : ℚ) : ViewerState × List NoteId :=
  if s.isPlaying = true then
    let triggered := frameTriggers notes s.playedNotes τ
    let s1 : ViewerState :=
      { isPlaying := s.isPlaying, currentTime := τ,
        activeNotes := ((notes.filter fun n =>
            n.startTime - 1 / 20 ≤ τ ∧ τ ≤ n.startTime + n.duration + 1 / 20).map
          (fun n => n.note)),
        playedNotes := s.playedNotes ++ triggered }
    if duration ≤ τ ∧ 0 < duration then (handleStop s1, triggered)
    else (s1, triggered)
  else (s, [])

/-- Run a sequence of animation frames, collecting every id triggered. -/
def runFrames (notes : List MIDINote) (duration : ℚ) :
    List ℚ → ViewerState → ViewerState × List NoteId
  | [], s => (s, [])
  | τ :: rest, s =>
    ((runFrames notes duration rest (animate notes duration s τ).1).1,
      (animate notes duration s τ).2 ++
        (runFrames notes duration rest (animate notes duration s τ).1).2)

theorem enum_eq_of_mem {l : List MIDINote} {i : ℕ} {m n : MIDINote}
    (hm : (i, m) ∈ l.enum) (hn : (i, n) ∈ l.enum) : m = n := by
  have h1 := List.mk_mem_enum_iff_getElem?.mp hm
  have h2 := List.mk_mem_enum_iff_getElem?.mp hn
  rw [h1] at h2
  exact Option.some.inj h2

theorem noteId_mem_inj {l : List MIDINote} {i j : ℕ} {m n : MIDINote}
    (hm : (i, m) ∈ l.enum) (hn : (j, n) ∈ l.enum)
    (h : noteId m i = noteId n j) : i = j ∧ m = n := by
  have hij : i = j := congrArg (fun q : NoteId => q.2.2) h
  subst hij
  exact ⟨rfl, enum_eq_of_mem hm hn⟩

theorem mem_pastNoteIds {notes : List MIDINote} {t : ℚ} {i : ℕ}
    {n : MIDINote} (hin : (i, n) ∈ notes.enum) :
    noteId n i ∈ pastNoteIds notes t ↔ n.startTime < t := by
  constructor
  · intro h
    rcases List.mem_filterMap.1 h with ⟨⟨j, m⟩, hjm, hsome⟩
    by_cases hc : m.startTime < t
    · simp only [if_pos hc] at hsome
      rcases noteId_mem_inj hjm hin (Option.some.inj hsome) with ⟨rfl, rfl⟩
      exact hc
    · simp only [if_neg hc] at hsome
      exact absurd hsome (by simp)
  · intro h
    refine List.mem_filterMap.2 ⟨(i, n), hin, ?_⟩
    show (if n.startTime < t then some (noteId n i) else none) =
      some (noteId n i)
    rw [if_pos h]

theorem mem_frameTriggers {notes : List MIDINote} {played : List NoteId}
    {τ : ℚ} {i : ℕ} {n : MIDINote} (hin : (i, n) ∈ notes.enum) :
    noteId n i ∈ frameTriggers notes played τ ↔
      ((n.startTime - 1 / 20 ≤ τ ∧ τ < n.startTime + 1 / 10) ∧
        noteId n i ∉ played) := by
  constructor
  · intro h
    rcases List.mem_filterMap.1 h with ⟨⟨j, m⟩, hjm, hsome⟩
    by_cases hc : (m.startTime - 1 / 20 ≤ τ ∧ τ < m.startTime + 1 / 10) ∧
        noteId m j ∉ played
    · simp only [if_pos hc] at hsome
      rcases noteId_mem_inj hjm hin (Option.some.inj hsome) with ⟨rfl, rfl⟩
      exact hc
    · simp only [if_neg hc] at hsome
      exact absurd hsome (by simp)
  · intro h
    refine List.mem_filterMap.2 ⟨(i, n), hin, ?_⟩
    show (if ((n.startTime - 1 / 20 ≤ τ ∧ τ < n.startTime + 1 / 10) ∧
        noteId n i ∉ played) then some (noteId n i) else none) =
      some (noteId n i)
    rw [if_pos h]

theorem animate_playing {notes : List MIDINote} {duration : ℚ}
    {s : ViewerState} {τ : ℚ} (hs : s.isPlaying = true) (hτ : τ < duration) :
    animate notes duration s τ =
      (⟨s.isPlaying, τ,
        ((notes.filter fun n =>
            n.startTime - 1 / 20 ≤ τ ∧ τ ≤ n.startTime + n.duration + 1 / 20).map
          (fun n => n.note)),
        s.playedNotes ++ frameTriggers notes s.playedNotes τ⟩,
       frameTriggers notes s.playedNotes τ) := by
  rw [animate, if_pos hs, if_neg]
  rintro ⟨hc, -⟩
  exact absurd hc (not_le.2 hτ)

theorem runFrames_char (notes : List MIDINote) (duration : ℚ) :
    ∀ (times : List ℚ) (s : ViewerState), s.isPlaying = true →
      (∀ τ ∈ times, τ < duration) →
      ∀ (i : ℕ) (n : MIDINote), (i, n) ∈ notes.enum →
      (noteId n i ∈ (runFrames notes duration times s).2 ↔
        (noteId n i ∉ s.playedNotes ∧
          ∃ τ ∈ times, n.startTime - 1 / 20 ≤ τ ∧ τ < n.startTime + 1 / 10)) := by
  intro times
  induction times with
  | nil =>
    intro s hs htimes i n hin
    simp [runFrames]
  | cons τ rest ih =>
    intro s hs htimes i n hin
    have hτ : τ < duration := htimes τ (List.mem_cons_self _ _)
    have hrest : ∀ τ2 ∈ rest, τ2 < duration := fun τ2 h2 =>
      htimes τ2 (List.mem_cons_of_mem _ h2)
    rw [runFrames]
    rw [animate_playing hs hτ]
    have hih := ih
      (⟨s.isPlaying, τ,
        ((notes.filter fun n =>
            n.startTime - 1 / 20 ≤ τ ∧ τ ≤ n.startTime + n.duration + 1 / 20).map
          (fun n => n.note)),
        s.playedNotes ++ frameTriggers notes s.playedNotes τ⟩ : ViewerState)
      hs hrest i n hin
    simp only [List.mem_append, hih, mem_frameTriggers hin, List.mem_cons]
    constructor
    · rintro (⟨hw, hnp⟩ | ⟨hnp, τ2, hτ2, hw⟩)
      · exact ⟨hnp, τ, Or.inl rfl, hw⟩
      · exact ⟨fun hc => hnp (Or.inl hc), τ2, Or.inr hτ2, hw⟩
    · rintro ⟨hnp, τ2, hτ2 | hτ2, hw⟩
      · subst hτ2
        exact Or.inl ⟨hw, hnp⟩
      · by_cases hw1 : n.startTime - 1 / 20 ≤ τ ∧ τ < n.startTime + 1 / 10
        · exact Or.inl ⟨hw1, hnp⟩
        · refine Or.inr ⟨?_, τ2, hτ2, hw⟩
          rintro (hc | ⟨hc, -⟩)
          · exact hnp hc
          · exact hw1 hc

end MIDIViewer

namespace MIDIViewer

open MIDIParser

/-- **C7**.  Seek to `t` while paused, then play, on a loaded non-empty
score: (i) the triggered-note set then contains exactly the ids of notes
with `startTime < t`; (ii) no note with `startTime < t` is triggered by
any later animation frame (taken before the end-of-score stop);
(iii) a note with `startTime ≥ t` is triggered exactly when some frame's
advancing clock lands in its trigger window
`[startTime − 0.05, startTime + 0.1)`. -/
theorem c7_seek_then_play (notes : List MIDINote) (duration t : ℚ)
    (times : List ℚ) (s : ViewerState) (i : ℕ) (n : MIDINote)
    (hpaused : s.isPlaying = false)
    (hne : notes ≠ [])
    (hin : (i, n) ∈ notes.enum)
    (htimes : ∀ τ ∈ times, τ < duration) :
    (noteId n i ∈ (handlePlayPause notes (handleSeek notes s t)).playedNotes ↔
      n.startTime < t) ∧
    (n.startTime < t →
      noteId n i ∉
        (runFrames notes duration times
          (handlePlayPause notes (handleSeek notes s t))).2) ∧
    (t ≤ n.startTime →
      (noteId n i ∈
          (runFrames notes duration times
            (handlePlayPause notes (handleSeek notes s t))).2 ↔
        ∃ τ ∈ times, n.startTime - 1 / 20 ≤ τ ∧ τ < n.startTime + 1 / 10)) := by
  have hs0 : handlePlayPause notes (handleSeek notes s t) =
      ⟨true, t, s.activeNotes, pastNoteIds notes t⟩ := by
    simp [handleSeek, handlePlayPause, hpaused, List.length_eq_zero, hne]
  rw [hs0]
  have hchar := runFrames_char notes duration times
    (⟨true, t, s.activeNotes, pastNoteIds notes t⟩ : ViewerState)
    rfl htimes i n hin
  refine ⟨mem_pastNoteIds hin, ?_, ?_⟩
  · intro hlt hmem
    exact absurd ((mem_pastNoteIds hin).2 hlt) (hchar.1 hmem).1
  · intro hge
    rw [hchar]
    have hnp : noteId n i ∉ pastNoteIds notes t := by
      rw [mem_pastNoteIds hin]
      exact not_lt.2 hge
    simp [hnp]

/-- Witness for `c7_seek_then_play`: a single note at 5.02 s in a
10-second score, seeking to 5.0 while paused, then playing, with one frame
at adjusted time 5.0 (inside the note's trigger window). -/
theorem c7_seek_then_play_witness :
    ((⟨false, 0, [], []⟩ : ViewerState).isPlaying = false) ∧
    ([(⟨"C5", 251 / 50, 1, 1⟩ : MIDINote)] ≠ []) ∧
    ((0, (⟨"C5", 251 / 50, 1, 1⟩ : MIDINote)) ∈
      ([(⟨"C5", 251 / 50, 1, 1⟩ : MIDINote)]).enum) ∧
    (∀ τ ∈ ([5] : List ℚ), τ < (10 : ℚ)) ∧
    ((noteId (⟨"C5", 251 / 50, 1, 1⟩ : MIDINote) 0 ∈
        (handlePlayPause [(⟨"C5", 251 / 50, 1, 1⟩ : MIDINote)]
          (handleSeek [(⟨"C5", 251 / 50, 1, 1⟩ : MIDINote)]
            (⟨false, 0, [], []⟩ : ViewerState) 5)).playedNotes ↔
      (251 / 50 : ℚ) < 5) ∧
    ((251 / 50 : ℚ) < 5 →
      noteId (⟨"C5", 251 / 50, 1, 1⟩ : MIDINote) 0 ∉
        (runFrames [(⟨"C5", 251 / 50, 1, 1⟩ : MIDINote)] 10 [5]
          (handlePlayPause [(⟨"C5", 251 / 50, 1, 1⟩ : MIDINote)]
            (handleSeek [(⟨"C5", 251 / 50, 1, 1⟩ : MIDINote)]
              (⟨false, 0, [], []⟩ : ViewerState) 5))).2) ∧
    ((5 : ℚ) ≤ 251 / 50 →
      (noteId (⟨"C5", 251 / 50, 1, 1⟩ : MIDINote) 0 ∈
          (runFrames [(⟨"C5", 251 / 50, 1, 1⟩ : MIDINote)] 10 [5]
            (handlePlayPause [(⟨"C5", 251 / 50, 1, 1⟩ : MIDINote)]
              (handleSeek [(⟨"C5", 251 / 50, 1, 1⟩ : MIDINote)]
                (⟨false, 0, [], []⟩ : ViewerState) 5))).2 ↔
        ∃ τ ∈ ([5] : List ℚ), (251 / 50 : ℚ) - 1 / 20 ≤ τ ∧
          τ < (251 / 50 : ℚ) + 1 / 10))) :=
  ⟨rfl, by simp, by simp, by intro τ hτ; simp at hτ; rw [hτ]; norm_num,
    c7_seek_then_play [⟨"C5", 251 / 50, 1, 1⟩] 10 5 [5] ⟨false, 0, [], []⟩ 0
      ⟨"C5", 251 / 50, 1, 1⟩ rfl (by simp) (by simp)
      (by intro τ hτ; simp at hτ; rw [hτ]; norm_num)⟩

end MIDIViewer

/-!
### The playback coordinator (`context/PlaybackContext.tsx`)

`playersRef` is a `Map<string, () => void>` from player id to stop
callback (insertion order, unique keys); `currentPlayingRef` the active
player.  A stop callback matters here only through being invoked and
possibly throwing, so it is abstracted by a throw flag; the invocation
order is recorded.  `notifyPlaybackStart` iterates over every *other*
registrant, invoking its callback inside `try { … } catch { … }` (a throw
is logged and the iteration continues), then calls
`AudioManager.stopAll()` and marks the caller as the current player.
-/

namespace PlaybackContext

structure NotifyResult where
  invoked : List String
  stopAllCalled : Bool
  currentPlaying : Option String
deriving DecidableEq

/-- The `playersRef.current.forEach` body of `notifyPlaybackStart`. -/
def notifyLoop (playerId : String) : List (String × Bool) → List String
  | [] => []
  | (id, throws) :: rest =>
    if id ≠ playerId then
      match (if throws then Except.error () else Except.ok () :
          Except Unit Unit) with
      | Except.ok _ => id :: notifyLoop playerId rest
      | Except.error _ => id :: notifyLoop playerId rest
    else notifyLoop playerId rest

/-- `notifyPlaybackStart(playerId)`. -/
def notifyPlaybackStart (players : List (String × Bool)) (playerId : String) :
    NotifyResult :=
  { invoked := notifyLoop playerId players
    stopAllCalled := true
    currentPlaying := some playerId }

/-- **C8**.  With players `a`, `b`, `c` registered (distinct ids, arbitrary
throw behaviour — in particular any of the invoked callbacks may throw),
`notifyStart a` invokes `b`'s and `c`'s stop callbacks exactly once each
and in registration order, never invokes `a`'s, and marks `a` as the
current player. -/
theorem c8_notifyStart (a b c : String) (fa fb fc : Bool)
    (hdistinct : a ≠ b ∧ a ≠ c ∧ b ≠ c) :
    (notifyPlaybackStart [(a, fa), (b, fb), (c, fc)] a).invoked = [b, c] ∧
    (notifyPlaybackStart [(a, fa), (b, fb), (c, fc)] a).invoked.count b = 1 ∧
    (notifyPlaybackStart [(a, fa), (b, fb), (c, fc)] a).invoked.count c = 1 ∧
    a ∉ (notifyPlaybackStart [(a, fa), (b, fb), (c, fc)] a).invoked ∧
    (notifyPlaybackStart [(a, fa), (b, fb), (c, fc)] a).currentPlaying =
      some a := by
  obtain ⟨hab, hac, hbc⟩ := hdistinct
  have hinv : notifyLoop a [(a, fa), (b, fb), (c, fc)] = [b, c] := by
    cases fa <;> cases fb <;> cases fc <;>
      simp [notifyLoop, Ne.symm hab, Ne.symm hac]
  refine ⟨hinv, ?_, ?_, ?_, rfl⟩
  · show (notifyLoop a [(a, fa), (b, fb), (c, fc)]).count b = 1
    rw [hinv]
    simp [List.count_cons, hbc]
  · show (notifyLoop a [(a, fa), (b, fb), (c, fc)]).count c = 1
    rw [hinv]
    simp [List.count_cons, Ne.symm hbc]
  · show a ∉ notifyLoop a [(a, fa), (b, fb), (c, fc)]
    rw [hinv]
    simp [hab, hac]

/-- Witness for `c8_notifyStart` with `A`, `B`, `C` registered and `A`'s
callback throwing. -/
theorem c8_notifyStart_witness :
    (("A" : String) ≠ "B" ∧ ("A" : String) ≠ "C" ∧ ("B" : String) ≠ "C") ∧
    ((notifyPlaybackStart [("A", true), ("B", false), ("C", false)]
        "A").invoked = ["B", "C"] ∧
      (notifyPlaybackStart [("A", true), ("B", false), ("C", false)]
        "A").invoked.count "B" = 1 ∧
      (notifyPlaybackStart [("A", true), ("B", false), ("C", false)]
        "A").invoked.count "C" = 1 ∧
      "A" ∉ (notifyPlaybackStart [("A", true), ("B", false), ("C", false)]
        "A").invoked ∧
      (notifyPlaybackStart [("A", true), ("B", false), ("C", false)]
        "A").currentPlaying = some "A") :=
  ⟨by decide,
    c8_notifyStart "A" "B" "C" true false false (by decide)⟩

end PlaybackContext

/-!
### The audio backend (`utils/AudioManager.ts` and the `part_010` variant)

State: the `isInitialized` flag, the last reported `initProgress`, and the
keys of the loaded resources (`audioBuffers` on web, `soundObjects` on
mobile).  The environment supplies the platform, Web-Audio availability,
whether constructing the `AudioContext` succeeds, whether
`Audio.setAudioModeAsync` succeeds, and which of the 88 sample assets load
successfully.  Each `initialize` model returns the new state, the sequence
of values passed to the progress callback, and the list of asset keys
whose loading was performed (empty when no assets are loaded).  Where the
source loads assets concurrently (`Promise.all`), the model lists loaded
keys in map order; the reported progress values depend only on the
cumulative success count and are exact.
-/

namespace AudioManager

/-- The 88 keys of `audioFileMap` (A0 … C8), in declaration order. -/
def audioFileMapKeys : List String :=
  [
   "A0", "A#0", "B0", "C1", "C#1", "D1", "D#1", "E1", "F1", "F#1", "G1",
   "G#1", "A1", "A#1", "B1", "C2", "C#2", "D2", "D#2", "E2", "F2", "F#2",
   "G2", "G#2", "A2", "A#2", "B2", "C3", "C#3", "D3", "D#3", "E3", "F3",
   "F#3", "G3", "G#3", "A3", "A#3", "B3", "C4", "C#4", "D4", "D#4", "E4",
   "F4", "F#4", "G4", "G#4", "A4", "A#4", "B4", "C5", "C#5", "D5", "D#5",
   "E5", "F5", "F#5", "G5", "G#5", "A5", "A#5", "B5", "C6", "C#6", "D6",
   "D#6", "E6", "F6", "F#6", "G6", "G#6", "A6", "A#6", "B6", "C7", "C#7",
   "D7", "D#7", "E7", "F7", "F#7", "G7", "G#7", "A7", "A#7", "B7", "C8"]

structure AMEnv where
  isWeb : Bool
  audioContextAvailable : Bool
  audioContextCreationOk : Bool
  setAudioModeOk : Bool
  assetLoads : String → Bool

structure AMState where
  isInitialized : Bool
  initProgress : ℚ
  audioBuffers : List String
  soundObjects : List String
  gainReady : Bool

/-- `loadAudioBuffer` (web, `AudioManager.ts`): all 88 samples are fetched
and decoded via `Promise.all`; failures are logged and skipped; each
success reports `60 + loadedCount/totalNotes * 30`. -/
def loadAudioBuffer (env : AMEnv) (s : AMState) :
    AMState × List ℚ × List String :=
  let loaded := audioFileMapKeys.filter (fun k => env.assetLoads k)
  ({ s with audioBuffers := s.audioBuffers ++ loaded },
    (List.range loaded.length).map
      (fun i => 60 + ((i + 1 : ℚ) / (audioFileMapKeys.length : ℚ)) * 30),
    loaded)

/-- `initializeSoundObjects` (mobile, `AudioManager.ts`): sequential load
of the 88 `Audio.Sound` objects, reporting `40 + loadedCount/total * 50`
per success; if nothing loads, the internal throw is caught and progress
90 is reported. -/
def initializeSoundObjects (env : AMEnv) (s : AMState) :
    AMState × List ℚ × List String :=
  let loaded := audioFileMapKeys.filter (fun k => env.assetLoads k)
  ({ s with soundObjects := s.soundObjects ++ loaded },
    (List.range loaded.length).map
        (fun i => 40 + ((i + 1 : ℚ) / (audioFileMapKeys.length : ℚ)) * 50) ++
      (if loaded.length = 0 then [90] else []),
    loaded)

/-- `AudioManager.initialize()` from `utils/AudioManager.ts`, here named
`initializeMain` because `initialize` is reserved in Lean.
The first guard returns immediately — reporting progress 100 and touching
nothing else — whenever a previous initialization completed; the second
guard silently drops a call arriving while another is mid-flight. -/
def initializeMain (env : AMEnv) (s : AMState) : AMState × List ℚ × List String :=
  if s.isInitialized = true then ({ s with initProgress := 100 }, [100], [])
  else if 0 < s.initProgress ∧ s.initProgress < 100 then (s, [], [])
  else
    if env.isWeb then
      if env.audioContextAvailable then
        if env.audioContextCreationOk then
          let r := loadAudioBuffer env { s with gainReady := true }
          ({ r.1 with isInitialized := true, initProgress := 100 },
            [10, 20, 30, 40, 60] ++ r.2.1 ++ [90, 100], r.2.2)
        else
          -- the AudioContext constructor threw: marked initialized anyway
          ({ s with isInitialized := true, initProgress := 100 },
            [10, 20, 100], [])
      else
        ({ s with isInitialized := true, initProgress := 100 }, [10, 100], [])
    else
      if env.setAudioModeOk then
        let r := initializeSoundObjects env s
        ({ r.1 with isInitialized := true, initProgress := 100 },
          [10, 20, 40] ++ r.2.1 ++ [100], r.2.2)
      else
        -- outer catch: progress 100 but `isInitialized` stays false
        ({ s with initProgress := 100 }, [10, 20, 100], [])

/-- `loadAudioBuffer` of the `part_010` variant: chunks of 10 via
`Promise.all`, reporting `20 + loadedCount/total * 80` after each chunk. -/
def loadAudioBufferV2 (env : AMEnv) (s : AMState) :
    AMState × List ℚ × List String :=
  let loaded := audioFileMapKeys.filter (fun k => env.assetLoads k)
  ({ s with audioBuffers := s.audioBuffers ++ loaded },
    (List.range 9).map (fun i =>
      20 + (((audioFileMapKeys.take (10 * (i + 1))).filter
          (fun k => env.assetLoads k)).length : ℚ) /
        (audioFileMapKeys.length : ℚ) * 80),
    loaded)

/-- `initializeSoundObjects` of the `part_010` variant: chunks of 5, same
per-chunk progress formula. -/
def initializeSoundObjectsV2 (env : AMEnv) (s : AMState) :
    AMState × List ℚ × List String :=
  let loaded := audioFileMapKeys.filter (fun k => env.assetLoads k)
  ({ s with soundObjects := s.soundObjects ++ loaded },
    (List.range 18).map (fun i =>
      20 + (((audioFileMapKeys.take (5 * (i + 1))).filter
          (fun k => env.assetLoads k)).length : ℚ) /
        (audioFileMapKeys.length : ℚ) * 80),
    loaded)

/-- `initialize()` of the `part_010` variant: the guard short-circuits
(progress 100, nothing else) only when a previous initialization completed
*and* more than 80 resources are present; otherwise the whole loading body
runs again.  When Web Audio is unavailable the function simply ends after
reporting 5 (no `else` branch in the source); when the context constructor
or the audio-mode call throws, the outer catch reports 100 without setting
`isInitialized`. -/
def initializeV2 (env : AMEnv) (s : AMState) :
    AMState × List ℚ × List String :=
  if s.isInitialized = true ∧
      ((env.isWeb = true ∧ 80 < s.audioBuffers.length) ∨
        (env.isWeb = false ∧ 80 < s.soundObjects.length)) then
    ({ s with initProgress := 100 }, [100], [])
  else
    if env.isWeb then
      if env.audioContextAvailable then
        if env.audioContextCreationOk then
          let r := loadAudioBufferV2 env { s with gainReady := true }
          ({ r.1 with isInitialized := true, initProgress := 100 },
            [5, 20] ++ r.2.1 ++ [100], r.2.2)
        else ({ s with initProgress := 100 }, [5, 100], [])
      else ({ s with initProgress := 5 }, [5], [])
    else
      if env.setAudioModeOk then
        let r := initializeSoundObjectsV2 env s
        ({ r.1 with isInitialized := true, initProgress := 100 },
          [5, 20] ++ r.2.1 ++ [100], r.2.2)
      else ({ s with initProgress := 100 }, [5, 100], [])

/-- A completed-but-degraded state of the `part_010` variant: marked
initialized (web), yet no sample buffer loaded. -/
def degradedState : AMState :=
  { isInitialized := true, initProgress := 100, audioBuffers := [],
    soundObjects := [], gainReady := true }

/-- A healthy web environment in which every asset loads. -/
def allOkWebEnv : AMEnv :=
  { isWeb := true, audioContextAvailable := true,
    audioContextCreationOk := true, setAudioModeOk := true,
    assetLoads := fun _ => true }

/-- **C9** (counterexample).  In the `part_010` variant a second
`initialize()` after a *completed* initialization is not always a no-op:
from a completed-but-degraded state (initialized, zero buffers), the call
re-runs asset loading — the resource count changes from 0 to 88 and the
performed-loads list is non-empty, contradicting "the loaded resource
count is unchanged, no assets are loaded again". -/
theorem c9_counterexample :
    degradedState.isInitialized = true ∧
    degradedState.audioBuffers.length = 0 ∧
    (initializeV2 allOkWebEnv degradedState).1.audioBuffers.length = 88 ∧
    (initializeV2 allOkWebEnv degradedState).2.2 ≠ [] := by
  refine ⟨rfl, rfl, ?_, ?_⟩
  · rfl
  · decide

/-- **C9** (amended).  A second `initialize()` after a completed
initialization is a no-op that reports progress 100 and leaves the state —
in particular the loaded resource counts — unchanged, with no asset
loaded: unconditionally in the primary `AudioManager.ts` (its guard tests
only `isInitialized`); in the `part_010` variant under its resource check,
i.e. when more than 80 resources are loaded. -/
theorem c9_amended :
    (∀ (env : AMEnv) (s : AMState), s.isInitialized = true →
      initializeMain env s = ({ s with initProgress := 100 }, [100], [])) ∧
    (∀ (env : AMEnv) (s : AMState), s.isInitialized = true →
      (env.isWeb = true ∧ 80 < s.audioBuffers.length ∨
        env.isWeb = false ∧ 80 < s.soundObjects.length) →
      initializeV2 env s = ({ s with initProgress := 100 }, [100], [])) := by
  constructor
  · intro env s hs
    rw [initializeMain, if_pos hs]
  · intro env s hs hres
    rw [initializeV2, if_pos ⟨hs, hres⟩]

/-- Witness for `c9_amended`: the primary manager from any initialized
state, and the `part_010` variant from a fully loaded web state. -/
theorem c9_amended_witness :
    degradedState.isInitialized = true ∧
    initializeMain allOkWebEnv degradedState =
      ({ degradedState with initProgress := 100 }, [100], []) ∧
    (allOkWebEnv.isWeb = true ∧
      80 < (AMState.mk true 100 audioFileMapKeys [] true).audioBuffers.length ∨
      allOkWebEnv.isWeb = false ∧
      80 < (AMState.mk true 100 audioFileMapKeys [] true).soundObjects.length) ∧
    initializeV2 allOkWebEnv (AMState.mk true 100 audioFileMapKeys [] true) =
      ({ AMState.mk true 100 audioFileMapKeys [] true with
          initProgress := 100 }, [100], []) :=
  ⟨rfl, c9_amended.1 allOkWebEnv degradedState rfl,
    Or.inl ⟨rfl, by decide⟩,
    c9_amended.2 allOkWebEnv (AMState.mk true 100 audioFileMapKeys [] true)
      rfl (Or.inl ⟨rfl, by decide⟩)⟩

end AudioManager
